import Mathlib

/-!
# hipcat: configuration resolution and message delivery

A shallow embedding of `hipcat.go` (package `main`), the command-line relay
that posts messages to a HipChat room, followed by theorems about it.

Modelling conventions.

* A Go `string` is a finite sequence of bytes: `GoString := List Nat`, every
  element standing for one byte.  Source literals are ASCII and are written
  `ascii "..."`.
* A method with a pointer receiver that returns `error` becomes a function
  returning `Except GoError Config`: the receiver after the call on success,
  the error otherwise.  `main` terminates the process on every error, so the
  receiver is never observed after a failed call.
* The operating system (files, environment, current user), the command line
  as seen through `pflag`, standard input as seen through `bufio.Scanner` and
  the HTTP transport are explicit arguments.
-/

namespace Hipcat

/-! ## Strings and errors -/

/-- A Go string: a sequence of bytes. -/
abbrev GoString := List Nat

/-- The bytes of an ASCII source literal. -/
def ascii (s : String) : GoString := s.toList.map Char.toNat

deriving instance DecidableEq for Except

/-- The error values that flow through the program. -/
inductive GoError where
  /-- An `*os.PathError`, as returned by `os.Open`. -/
  | pathError (op path err : GoString)
  /-- An error returned by `(*json.Decoder).Decode`; `msg` is its text. -/
  | decodeError (msg : GoString)
  /-- The value `errors.New(msg)` or `fmt.Errorf` with rendered text `msg`. -/
  | errorString (msg : GoString)
  /-- The `*url.Error` returned by `url.Parse`; `reason` is the text of the
  error it wraps. -/
  | urlError (reason : GoString)
  /-- An error returned by the HTTP client or by reading from a stream. -/
  | ioError (msg : GoString)
  deriving DecidableEq

/-- The method `Error()` of an error value, where its text is modelled.
`(*os.PathError).Error` is `e.Op + " " + e.Path + ": " + e.Err.Error()`.  The
text of a `*url.Error` quotes the URL with `%q`, which is not modelled: it is
`none`, and no statement below is about it. -/
def GoError.Error : GoError → Option GoString
  | .pathError op path err => some (op ++ ascii " " ++ path ++ ascii ": " ++ err)
  | .decodeError msg => some msg
  | .errorString msg => some msg
  | .urlError _ => none
  | .ioError msg => some msg

/-! ## Configuration -/

/-- Config defines structure of the config file. -/
structure Config where
  HipchatURL : GoString
  Room : GoString
  APIToken : GoString
  deriving DecidableEq

/-- The zero value `Config{}`. -/
def Config.zero : Config := ⟨[], [], []⟩

/-- What a successfully decoded config file says about the three keys
`hipchat_url`, `room` and `api_token`: `some v` when the object gives the key
the string `v`, `none` when the key is missing (or `null`). -/
structure FileObject where
  hipchat_url : Option GoString
  room : Option GoString
  api_token : Option GoString
  deriving DecidableEq

/-- What `os.Open(path)` followed by `json.NewDecoder(file).Decode(c)` meets at
one path. -/
inductive ConfFile where
  /-- `os.Open` fails with an error for which `os.IsNotExist` holds. -/
  | notExist
  /-- `os.Open` fails with another error, whose underlying text is `err`. -/
  | openFails (err : GoString)
  /-- The file opens and `Decode` returns an error with text `msg`. -/
  | decodeFails (msg : GoString)
  /-- The file opens and `Decode` succeeds on the object `o`. -/
  | object (o : FileObject)
  deriving DecidableEq

/-- The part of the operating system the configuration is read from. -/
structure World where
  /-- The result of `user.Current()`: `some usr.HomeDir`, or `none` on error. -/
  currentUser : Option GoString
  /-- The state of the file at each path. -/
  file : GoString → ConfFile
  /-- The environment: `none` for a variable that is not set. -/
  env : GoString → Option GoString

/-- The call `os.Getenv(key)`: the value, or the empty string when unset. -/
def World.Getenv (w : World) (key : GoString) : GoString :=
  match w.env key with
  | some v => v
  | none => []

/-- The effect of a successful `Decode(c)` on the receiver: a key the object
defines overwrites its field, a key it does not define leaves the field. -/
def FileObject.decodeInto (o : FileObject) (c : Config) : Config :=
  { HipchatURL := match o.hipchat_url with
      | some v => v
      | none => c.HipchatURL
    Room := match o.room with
      | some v => v
      | none => c.Room
    APIToken := match o.api_token with
      | some v => v
      | none => c.APIToken }

/-- The body of the `for _, path := range ...` loop of `loadConfigFiles`, over
the paths still to visit. -/
def loadPaths (w : World) : List GoString → Config → Except GoError Config
  | [], c => .ok c
  | path :: rest, c =>
    match w.file path with
    | .notExist => loadPaths w rest c
    | .openFails err => .error (.pathError (ascii "open") path err)
    | .decodeFails msg => .error (.decodeError msg)
    | .object o => loadPaths w rest (o.decodeInto c)

/-- The home directory computed at the top of `loadConfigFiles`. -/
def homeDir (w : World) : GoString :=
  match w.currentUser with
  | some h => h
  | none => []

/-- The three paths `loadConfigFiles` visits, in order. -/
def configPaths (w : World) : List GoString :=
  [ascii "/etc/hipcat.conf", homeDir w ++ ascii "/.hipcat.conf", ascii "./hipcat.conf"]

/-- The method `(c *Config) loadConfigFiles() error`. -/
def Config.loadConfigFiles (w : World) (c : Config) : Except GoError Config :=
  loadPaths w (configPaths w) c

/-- One iteration of the loop of `loadEnvVars` for the variable `env`. -/
def envStep (w : World) (c : Config) (env : GoString) : Config :=
  let envVal := w.Getenv env
  if envVal = [] then c
  else if env = ascii "HIPCHAT_URL" then { c with HipchatURL := envVal }
  else if env = ascii "HIPCAT_ROOM" then { c with Room := envVal }
  else if env = ascii "HIPCAT_API_TOKEN" then { c with APIToken := envVal }
  else c

/-- The method `(c *Config) loadEnvVars()`. -/
def Config.loadEnvVars (w : World) (c : Config) : Config :=
  [ascii "HIPCHAT_URL", ascii "HIPCAT_ROOM", ascii "HIPCAT_API_TOKEN"].foldl (envStep w) c

/-- The text of the error `Load` returns for a missing `HipchatURL`. -/
def missingHipchatURL : GoString :=
  ascii "Could not find a HipchatURL in HIPCHAT_URL, /etc/hipcat.conf, /.hipcat.conf, ./hipcat.conf"

/-- The text of the error `Load` returns for a missing `APIToken`. -/
def missingAPIToken : GoString :=
  ascii "Could not find an APIToken in HIPCAT_API_TOKEN, /etc/hipcat.conf, /.hipcat.conf, ./hipcat.conf"

/-- The method `(c *Config) Load() error`. -/
def Config.Load (w : World) (c : Config) : Except GoError Config :=
  match c.loadConfigFiles w with
  | .error err => .error err
  | .ok c1 =>
    let c2 := c1.loadEnvVars w
    if c2.HipchatURL = [] then .error (.errorString missingHipchatURL)
    else if c2.APIToken = [] then .error (.errorString missingAPIToken)
    else .ok c2

/-! ## UTF-8 (package `unicode/utf8`) -/

/-- The constant `utf8.RuneError`, U+FFFD. -/
def RuneError : Nat := 0xFFFD

/-- The entry of the table `first` for a lead byte at or above `0x80`: `none`
for an invalid lead byte, otherwise the length of the sequence and the range
the second byte has to lie in (`acceptRanges`). -/
def firstInfo (s0 : Nat) : Option (Nat × Nat × Nat) :=
  if 0xC2 ≤ s0 ∧ s0 ≤ 0xDF then some (2, 0x80, 0xBF)
  else if s0 = 0xE0 then some (3, 0xA0, 0xBF)
  else if 0xE1 ≤ s0 ∧ s0 ≤ 0xEC then some (3, 0x80, 0xBF)
  else if s0 = 0xED then some (3, 0x80, 0x9F)
  else if 0xEE ≤ s0 ∧ s0 ≤ 0xEF then some (3, 0x80, 0xBF)
  else if s0 = 0xF0 then some (4, 0x90, 0xBF)
  else if 0xF1 ≤ s0 ∧ s0 ≤ 0xF3 then some (4, 0x80, 0xBF)
  else if s0 = 0xF4 then some (4, 0x80, 0x8F)
  else none

/-- The function `utf8.DecodeRuneInString`: the first rune of `s` and its width
in bytes; `(RuneError, 1)` for an encoding that is not valid.  The masks and
shifts of the source are written with `%` and `*`: the bit fields it combines
do not overlap. -/
def DecodeRuneInString (s : GoString) : Nat × Nat :=
  match s with
  | [] => (RuneError, 0)
  | s0 :: _ =>
    if s0 < 0x80 then (s0, 1)
    else
      match firstInfo s0 with
      | none => (RuneError, 1)
      | some (sz, lo, hi) =>
        if s.length < sz then (RuneError, 1)
        else
          let s1 := s.getD 1 0
          if s1 < lo ∨ hi < s1 then (RuneError, 1)
          else if sz ≤ 2 then ((s0 % 32) * 64 + s1 % 64, 2)
          else
            let s2 := s.getD 2 0
            if s2 < 0x80 ∨ 0xBF < s2 then (RuneError, 1)
            else if sz ≤ 3 then ((s0 % 16) * 4096 + (s1 % 64) * 64 + s2 % 64, 3)
            else
              let s3 := s.getD 3 0
              if s3 < 0x80 ∨ 0xBF < s3 then (RuneError, 1)
              else ((s0 % 8) * 262144 + (s1 % 64) * 4096 + (s2 % 64) * 64 + s3 % 64, 4)

/-- The bytes `utf8.EncodeRune` writes for the rune `r` (a `uint32` value). -/
def EncodeRune (r : Nat) : GoString :=
  if r ≤ 0x7F then [r]
  else if r ≤ 0x7FF then [0xC0 + r / 64, 0x80 + r % 64]
  else if r > 0x10FFFF ∨ (0xD800 ≤ r ∧ r ≤ 0xDFFF) then
    [0xE0 + RuneError / 4096, 0x80 + RuneError / 64 % 64, 0x80 + RuneError % 64]
  else if r ≤ 0xFFFF then [0xE0 + r / 4096, 0x80 + r / 64 % 64, 0x80 + r % 64]
  else [0xF0 + r / 262144, 0x80 + r / 4096 % 64, 0x80 + r / 64 % 64, 0x80 + r % 64]

/-- The loop of `utf8.ValidString`, with `fuel` bounding the iterations. -/
def validStringLoop : Nat → GoString → Bool
  | _, [] => true
  | 0, _ :: _ => false
  | fuel + 1, s0 :: rest =>
    let rs := DecodeRuneInString (s0 :: rest)
    if rs.1 = RuneError ∧ rs.2 = 1 then false
    else validStringLoop fuel ((s0 :: rest).drop rs.2)

/-- The function `utf8.ValidString`: `s` consists of valid UTF-8 encodings
only.  Every iteration consumes a byte, so `s.length` iterations suffice. -/
def ValidString (s : GoString) : Bool := validStringLoop s.length s

/-- The first two bytes of a well-formed sequence of three bytes. -/
def wellFormed3 (s0 s1 : Nat) : Prop :=
  (s0 = 0xE0 ∧ 0xA0 ≤ s1 ∧ s1 ≤ 0xBF) ∨ (0xE1 ≤ s0 ∧ s0 ≤ 0xEC ∧ 0x80 ≤ s1 ∧ s1 ≤ 0xBF) ∨
    (s0 = 0xED ∧ 0x80 ≤ s1 ∧ s1 ≤ 0x9F) ∨ (0xEE ≤ s0 ∧ s0 ≤ 0xEF ∧ 0x80 ≤ s1 ∧ s1 ≤ 0xBF)

/-- The first two bytes of a well-formed sequence of four bytes. -/
def wellFormed4 (s0 s1 : Nat) : Prop :=
  (s0 = 0xF0 ∧ 0x90 ≤ s1 ∧ s1 ≤ 0xBF) ∨ (0xF1 ≤ s0 ∧ s0 ≤ 0xF3 ∧ 0x80 ≤ s1 ∧ s1 ≤ 0xBF) ∨
    (s0 = 0xF4 ∧ 0x80 ≤ s1 ∧ s1 ≤ 0x8F)

/-! ## The message and its JSON encoding (package `encoding/json`) -/

/-- RoomMessage contains the message for the Hipchat room. -/
structure RoomMessage where
  Message : GoString
  deriving DecidableEq

/-- The digit `hex[n]` of the encoder, `hex = "0123456789abcdef"`. -/
def hex (n : Nat) : Nat := (ascii "0123456789abcdef").getD n 0

/-- The table `htmlSafeSet`: the ASCII bytes the encoder copies unchanged when
it escapes HTML, which `json.Marshal` does. -/
def htmlSafeSet (b : Nat) : Bool :=
  0x20 ≤ b ∧ b < 0x80 ∧ b ≠ 0x22 ∧ b ≠ 0x26 ∧ b ≠ 0x3C ∧ b ≠ 0x3E ∧ b ≠ 0x5C

/-- What the encoder writes for a byte below `utf8.RuneSelf`. -/
def appendASCII (b : Nat) : GoString :=
  if htmlSafeSet b then [b]
  else if b = 0x5C ∨ b = 0x22 then [0x5C, b]
  else if b = 0x08 then ascii "\\b"
  else if b = 0x0C then ascii "\\f"
  else if b = 0x0A then ascii "\\n"
  else if b = 0x0D then ascii "\\r"
  else if b = 0x09 then ascii "\\t"
  else ascii "\\u00" ++ [hex (b / 16), hex (b % 16)]

/-- The loop of the string encoder (`appendString` with `escapeHTML` set)
over the bytes still to encode: an unsafe ASCII byte is escaped, an invalid
UTF-8 byte becomes the six characters of the escape for U+FFFD, U+2028 and
U+2029 are escaped, and every other encoding is copied. -/
def appendStringLoop : Nat → GoString → GoString
  | _, [] => []
  | 0, _ :: _ => []
  | fuel + 1, b :: rest =>
    if b < 0x80 then appendASCII b ++ appendStringLoop fuel rest
    else
      let cs := DecodeRuneInString (b :: rest)
      if cs.1 = RuneError ∧ cs.2 = 1 then
        ascii "\\ufffd" ++ appendStringLoop fuel rest
      else if cs.1 = 0x2028 ∨ cs.1 = 0x2029 then
        ascii "\\u202" ++ [hex (cs.1 % 16)] ++ appendStringLoop fuel ((b :: rest).drop cs.2)
      else
        (b :: rest).take cs.2 ++ appendStringLoop fuel ((b :: rest).drop cs.2)

/-- The JSON string literal for `src`, quotes included. -/
def appendString (src : GoString) : GoString :=
  [0x22] ++ appendStringLoop src.length src ++ [0x22]

/-- The call `json.Marshal(m)` for a `RoomMessage`: an object with the one
member `message`.  A struct with a single string field has no value the
encoder rejects, so the error result is always `nil`. -/
def Marshal (m : RoomMessage) : Except GoError GoString :=
  .ok (ascii "\x7b\"message\":" ++ appendString m.Message ++ ascii "\x7d")

/-- Encode encodes the RoomMessage into a json string. -/
def RoomMessage.Encode (m : RoomMessage) : Except GoError GoString :=
  match Marshal m with
  | .error err => .error err
  | .ok b => .ok b

/-- The value of a hexadecimal digit, as `getu4` reads it. -/
def unhexDigit (c : Nat) : Option Nat :=
  if 0x30 ≤ c ∧ c ≤ 0x39 then some (c - 0x30)
  else if 0x61 ≤ c ∧ c ≤ 0x66 then some (c - 0x61 + 10)
  else if 0x41 ≤ c ∧ c ≤ 0x46 then some (c - 0x41 + 10)
  else none

/-- The function `getu4` of the decoder: the rune of a leading `\uXXXX`, or
`none` where the source returns `-1`. -/
def getu4 (s : GoString) : Option Nat :=
  match s with
  | 0x5C :: 0x75 :: a :: b :: c :: d :: _ =>
    match unhexDigit a, unhexDigit b, unhexDigit c, unhexDigit d with
    | some x, some y, some z, some v => some (((x * 16 + y) * 16 + z) * 16 + v)
    | _, _, _, _ => none
  | _ => none

/-- The rune a `\u` escape stands for once a following low surrogate has been
looked at: `(rune, consumed a second escape)`.  This is the `case 'u'` of
`unquoteBytes` with `utf16.IsSurrogate` and `utf16.DecodeRune`. -/
def escapedRune (rr : Nat) (next : Option Nat) : Nat × Bool :=
  if 0xD800 ≤ rr ∧ rr < 0xE000 then
    match next with
    | some rr1 =>
      if rr < 0xDC00 ∧ 0xDC00 ≤ rr1 ∧ rr1 < 0xE000 then
        ((rr - 0xD800) * 1024 + (rr1 - 0xDC00) + 0x10000, true)
      else (RuneError, false)
    | none => (RuneError, false)
  else (rr, false)

/-- Puts `pre` in front of the text of a decoded literal. -/
def consumed (pre : GoString) : Option (GoString × GoString) → Option (GoString × GoString)
  | some (t, rest) => some (pre ++ t, rest)
  | none => none

/-- The decoder on the inside of a string literal: the input starts right
after the opening quote; the result is the text of the literal and the input
after its closing quote.  The source first finds the end of the literal (the
scanner) and then unquotes it (`unquoteBytes`); both passes walk the literal
the same way and are one pass here.  `none` is a syntax error. -/
def unquoteLoop : Nat → GoString → Option (GoString × GoString)
  | 0, _ => none
  | _ + 1, [] => none
  | fuel + 1, c :: rest =>
    if c = 0x22 then some ([], rest)
    else if c = 0x5C then
      match rest with
      | [] => none
      | e :: rest2 =>
        if e = 0x22 ∨ e = 0x5C ∨ e = 0x2F then consumed [e] (unquoteLoop fuel rest2)
        else if e = 0x62 then consumed [0x08] (unquoteLoop fuel rest2)
        else if e = 0x66 then consumed [0x0C] (unquoteLoop fuel rest2)
        else if e = 0x6E then consumed [0x0A] (unquoteLoop fuel rest2)
        else if e = 0x72 then consumed [0x0D] (unquoteLoop fuel rest2)
        else if e = 0x74 then consumed [0x09] (unquoteLoop fuel rest2)
        else if e = 0x75 then
          match getu4 (c :: rest) with
          | none => none
          | some rr =>
            let after := rest.drop 5
            let dec := escapedRune rr (getu4 after)
            if dec.2 then
              consumed (EncodeRune dec.1) (unquoteLoop fuel (after.drop 6))
            else
              consumed (EncodeRune dec.1) (unquoteLoop fuel after)
        else none
    else if c < 0x20 then none
    else if c < 0x80 then consumed [c] (unquoteLoop fuel rest)
    else
      let rs := DecodeRuneInString (c :: rest)
      consumed (EncodeRune rs.1) (unquoteLoop fuel ((c :: rest).drop rs.2))

/-- A string literal whose opening quote has been read. -/
def unquote (s : GoString) : Option (GoString × GoString) := unquoteLoop (s.length + 1) s

/-- Skips the white space JSON allows between tokens (`isSpace`). -/
def skipSpace : GoString → GoString
  | [] => []
  | c :: rest =>
    if c = 0x20 ∨ c = 0x09 ∨ c = 0x0D ∨ c = 0x0A then skipSpace rest else c :: rest

/-- The call `json.Unmarshal(data, &m)` for a fresh `RoomMessage`, on the
texts of the shape `Marshal` produces: an object with the single member
`"message"` whose value is a string literal, with optional white space
between the tokens.  `none` stands for an error of the decoder or for a text
of another shape, which is not modelled. -/
def Unmarshal (data : GoString) : Option RoomMessage :=
  match skipSpace data with
  | 0x7B :: s1 =>
    match skipSpace s1 with
    | 0x22 :: s2 =>
      match unquote s2 with
      | some (key, s3) =>
        match skipSpace s3 with
        | 0x3A :: s4 =>
          match skipSpace s4 with
          | 0x22 :: s5 =>
            match unquote s5 with
            | some (val, s6) =>
              match skipSpace s6 with
              | 0x7D :: s7 =>
                if skipSpace s7 = [] ∧ key = ascii "message" then some ⟨val⟩ else none
              | _ => none
            | none => none
          | _ => none
        | _ => none
      | none => none
    | _ => none
  | _ => none

/-! ## URLs (package `net/url`)

`Post` builds its target with `url.Parse` and `(*URL).String`.  Both are
modelled in full, after the package source of Go 1.21. -/

/-- The first index of the byte `c` in `s` (`strings.IndexByte`). -/
def indexByte (c : Nat) : GoString → Option Nat
  | [] => none
  | x :: rest =>
    if x = c then some 0
    else
      match indexByte c rest with
      | some i => some (i + 1)
      | none => none

/-- The last index of the byte `c` in `s` (`strings.LastIndex` with a
separator of one byte). -/
def lastIndexByte (c : Nat) : GoString → Option Nat
  | [] => none
  | x :: rest =>
    match lastIndexByte c rest with
    | some i => some (i + 1)
    | none => if x = c then some 0 else none

/-- The call `strings.Cut(s, sep)` for a separator of one byte: the text
before and after its first occurrence, or `(s, "")`. -/
def cutByte (c : Nat) (s : GoString) : GoString × GoString :=
  match indexByte c s with
  | some i => (s.take i, s.drop (i + 1))
  | none => (s, [])

/-- The first index at which `sub` starts in `s` (`strings.Index`). -/
def indexOf (sub : GoString) : GoString → Option Nat
  | [] => if sub = [] then some 0 else none
  | x :: rest =>
    if sub.isPrefixOf (x :: rest) then some 0
    else
      match indexOf sub rest with
      | some i => some (i + 1)
      | none => none

/-- The call `strings.ToLower` on ASCII text. -/
def toLower (s : GoString) : GoString :=
  s.map (fun c => if 0x41 ≤ c ∧ c ≤ 0x5A then c + 0x20 else c)

/-- The type `url.Userinfo`. -/
structure Userinfo where
  username : GoString
  password : GoString
  passwordSet : Bool
  deriving DecidableEq

/-- The type `url.URL`. -/
structure URL where
  Scheme : GoString
  Opaque : GoString
  User : Option Userinfo
  Host : GoString
  Path : GoString
  RawPath : GoString
  OmitHost : Bool
  ForceQuery : Bool
  RawQuery : GoString
  Fragment : GoString
  RawFragment : GoString
  deriving DecidableEq

/-- The zero value `URL{}`. -/
def URL.zero : URL := ⟨[], [], none, [], [], [], false, false, [], [], []⟩

/-- The escaping modes of the package. -/
inductive Encoding where
  | encodePath
  | encodePathSegment
  | encodeHost
  | encodeZone
  | encodeUserPassword
  | encodeQueryComponent
  | encodeFragment
  deriving DecidableEq

/-- An ASCII letter or digit. -/
def isAlnum (c : Nat) : Bool :=
  (0x61 ≤ c ∧ c ≤ 0x7A) ∨ (0x41 ≤ c ∧ c ≤ 0x5A) ∨ (0x30 ≤ c ∧ c ≤ 0x39)

/-- The function `shouldEscape`: whether the byte `c` is written as `%XX` in
the given part of a URL. -/
def shouldEscape (c : Nat) (mode : Encoding) : Bool :=
  if isAlnum c then false
  else if (mode = .encodeHost ∨ mode = .encodeZone) ∧ c ∈ ascii "!$&'()*+,;=:[]<>\"" then false
  else if c ∈ ascii "-_.~" then false
  else if c ∈ ascii "$&+,/:;=?@" then
    match mode with
    | .encodePath => c = 0x3F
    | .encodePathSegment => c = 0x2F ∨ c = 0x3B ∨ c = 0x2C ∨ c = 0x3F
    | .encodeUserPassword => c = 0x40 ∨ c = 0x2F ∨ c = 0x3F ∨ c = 0x3A
    | .encodeQueryComponent => true
    | .encodeFragment => false
    | _ => true
  else if mode = .encodeFragment ∧ c ∈ ascii "!()*" then false
  else true

/-- The function `ishex`. -/
def ishex (c : Nat) : Bool :=
  (0x30 ≤ c ∧ c ≤ 0x39) ∨ (0x61 ≤ c ∧ c ≤ 0x66) ∨ (0x41 ≤ c ∧ c ≤ 0x46)

/-- The function `unhex`. -/
def unhex (c : Nat) : Nat :=
  if 0x30 ≤ c ∧ c ≤ 0x39 then c - 0x30
  else if 0x61 ≤ c ∧ c ≤ 0x66 then c - 0x61 + 10
  else if 0x41 ≤ c ∧ c ≤ 0x46 then c - 0x41 + 10
  else 0

/-- The first loop of `unescape`, which checks the text: `some reason` when
`unescape` returns an error, `none` when the text is accepted. -/
def unescapeCheck (mode : Encoding) : GoString → Option GoString
  | [] => none
  | c :: rest =>
    if c = 0x25 then
      match rest with
      | a :: b :: rest2 =>
        if ¬ ishex a ∨ ¬ ishex b then some (ascii "invalid URL escape")
        else if mode = .encodeHost ∧ unhex a < 8 ∧ [c, a, b] ≠ ascii "%25" then
          some (ascii "invalid URL escape")
        else if mode = .encodeZone ∧ [c, a, b] ≠ ascii "%25" ∧ unhex a * 16 + unhex b ≠ 0x20
            ∧ shouldEscape (unhex a * 16 + unhex b) .encodeHost then
          some (ascii "invalid URL escape")
        else unescapeCheck mode rest2
      | _ => some (ascii "invalid URL escape")
    else if c = 0x2B then unescapeCheck mode rest
    else if (mode = .encodeHost ∨ mode = .encodeZone) ∧ c < 0x80 ∧ shouldEscape c .encodeHost then
      some (ascii "invalid character in host name")
    else unescapeCheck mode rest

/-- The second loop of `unescape`, which decodes a text the first loop
accepted.  (Where the source returns the text itself because it holds nothing
to decode, this loop returns it too.) -/
def unescapeBytes (mode : Encoding) : GoString → GoString
  | [] => []
  | c :: rest =>
    if c = 0x25 then
      match rest with
      | a :: b :: rest2 => (unhex a * 16 + unhex b) :: unescapeBytes mode rest2
      | _ => []
    else if c = 0x2B then
      (if mode = .encodeQueryComponent then 0x20 else 0x2B) :: unescapeBytes mode rest
    else c :: unescapeBytes mode rest

/-- The function `unescape`. -/
def unescape (s : GoString) (mode : Encoding) : Except GoString GoString :=
  match unescapeCheck mode s with
  | some reason => .error reason
  | none => .ok (unescapeBytes mode s)

/-- The digit `upperhex[n]`, `upperhex = "0123456789ABCDEF"`. -/
def upperhex (n : Nat) : Nat := (ascii "0123456789ABCDEF").getD n 0

/-- The function `escape`. -/
def escape (s : GoString) (mode : Encoding) : GoString :=
  s.flatMap (fun c =>
    if c = 0x20 ∧ mode = .encodeQueryComponent then [0x2B]
    else if shouldEscape c mode then [0x25, upperhex (c / 16), upperhex (c % 16)]
    else [c])

/-- The function `validEncoded`. -/
def validEncoded (s : GoString) (mode : Encoding) : Bool :=
  s.all (fun c => c ∈ ascii "!$&'()*+,;=:@[]%" ∨ ¬ shouldEscape c mode)

/-- The function `stringContainsCTLByte`. -/
def stringContainsCTLByte (s : GoString) : Bool :=
  s.any (fun b => b < 0x20 ∨ b = 0x7F)

/-- The loop of `getScheme`; `i` is the index reached and `s` the text from
there on, `raw` the whole text. -/
def getSchemeLoop (raw : GoString) : Nat → GoString → Except GoString (GoString × GoString)
  | _, [] => .ok ([], raw)
  | i, c :: rest =>
    if (0x61 ≤ c ∧ c ≤ 0x7A) ∨ (0x41 ≤ c ∧ c ≤ 0x5A) then getSchemeLoop raw (i + 1) rest
    else if (0x30 ≤ c ∧ c ≤ 0x39) ∨ c = 0x2B ∨ c = 0x2D ∨ c = 0x2E then
      if i = 0 then .ok ([], raw) else getSchemeLoop raw (i + 1) rest
    else if c = 0x3A then
      if i = 0 then .error (ascii "missing protocol scheme") else .ok (raw.take i, rest)
    else .ok ([], raw)

/-- The function `getScheme`: the scheme of `rawURL` and what follows its
colon. -/
def getScheme (rawURL : GoString) : Except GoString (GoString × GoString) :=
  getSchemeLoop rawURL 0 rawURL

/-- The function `validOptionalPort`. -/
def validOptionalPort (port : GoString) : Bool :=
  match port with
  | [] => true
  | c :: digits => c = 0x3A ∧ digits.all (fun b => 0x30 ≤ b ∧ b ≤ 0x39)

/-- The function `validUserinfo`.  The source ranges over runes; a byte at
or above `0x80` makes a rune outside the accepted set either way. -/
def validUserinfo (s : GoString) : Bool :=
  s.all (fun r => isAlnum r ∨ r ∈ ascii "-._:~!$&'()*+,;=%@")

/-- The function `parseHost`. -/
def parseHost (host : GoString) : Except GoString GoString :=
  let plain : Except GoString GoString := unescape host .encodeHost
  match host with
  | 0x5B :: _ =>
    match lastIndexByte 0x5D host with
    | none => .error (ascii "missing ']' in host")
    | some i =>
      if ¬ validOptionalPort (host.drop (i + 1)) then .error (ascii "invalid port after host")
      else
        match indexOf (ascii "%25") (host.take i) with
        | some zone =>
          match unescape (host.take zone) .encodeHost with
          | .error e => .error e
          | .ok host1 =>
            match unescape ((host.take i).drop zone) .encodeZone with
            | .error e => .error e
            | .ok host2 =>
              match unescape (host.drop i) .encodeHost with
              | .error e => .error e
              | .ok host3 => .ok (host1 ++ host2 ++ host3)
        | none => plain
  | _ =>
    match lastIndexByte 0x3A host with
    | some i =>
      if ¬ validOptionalPort (host.drop i) then .error (ascii "invalid port after host")
      else plain
    | none => plain

/-- The function `parseAuthority`. -/
def parseAuthority (authority : GoString) : Except GoString (Option Userinfo × GoString) :=
  match lastIndexByte 0x40 authority with
  | none =>
    match parseHost authority with
    | .error e => .error e
    | .ok host => .ok (none, host)
  | some i =>
    match parseHost (authority.drop (i + 1)) with
    | .error e => .error e
    | .ok host =>
      let userinfo := authority.take i
      if ¬ validUserinfo userinfo then .error (ascii "net/url: invalid userinfo")
      else if 0x3A ∉ userinfo then
        match unescape userinfo .encodeUserPassword with
        | .error e => .error e
        | .ok u => .ok (some ⟨u, [], false⟩, host)
      else
        match unescape (cutByte 0x3A userinfo).1 .encodeUserPassword with
        | .error e => .error e
        | .ok username =>
          match unescape (cutByte 0x3A userinfo).2 .encodeUserPassword with
          | .error e => .error e
          | .ok password => .ok (some ⟨username, password, true⟩, host)

/-- The method `(u *URL) setPath`. -/
def URL.setPath (u : URL) (p : GoString) : Except GoString URL :=
  match unescape p .encodePath with
  | .error e => .error e
  | .ok path =>
    if p = escape path .encodePath then .ok { u with Path := path, RawPath := [] }
    else .ok { u with Path := path, RawPath := p }

/-- The method `(u *URL) setFragment`. -/
def URL.setFragment (u : URL) (f : GoString) : Except GoString URL :=
  match unescape f .encodeFragment with
  | .error e => .error e
  | .ok frag =>
    if f = escape frag .encodeFragment then .ok { u with Fragment := frag, RawFragment := [] }
    else .ok { u with Fragment := frag, RawFragment := f }

/-- The function `parse(rawURL, viaRequest)` with `viaRequest` false, as
`Parse` calls it. -/
def parse (rawURL : GoString) : Except GoString URL :=
  if stringContainsCTLByte rawURL then .error (ascii "net/url: invalid control character in URL")
  else if rawURL = ascii "*" then .ok { URL.zero with Path := ascii "*" }
  else
    match getScheme rawURL with
    | .error e => .error e
    | .ok (scheme, rest0) =>
      let url : URL := { URL.zero with Scheme := toLower scheme }
      let forced : Bool := rest0.getLast? = some 0x3F ∧ rest0.count 0x3F = 1
      let rest : GoString := if forced then rest0.dropLast else (cutByte 0x3F rest0).1
      let url : URL :=
        if forced then { url with ForceQuery := true }
        else { url with RawQuery := (cutByte 0x3F rest0).2 }
      if rest.head? ≠ some 0x2F ∧ url.Scheme ≠ [] then .ok { url with Opaque := rest }
      else if rest.head? ≠ some 0x2F ∧ 0x3A ∈ (cutByte 0x2F rest).1 then
        .error (ascii "first path segment in URL cannot contain colon")
      else if (url.Scheme ≠ [] ∨ ¬ (ascii "///").isPrefixOf rest) ∧ (ascii "//").isPrefixOf rest then
        let authority0 := rest.drop 2
        let authority : GoString :=
          match indexByte 0x2F authority0 with
          | some i => authority0.take i
          | none => authority0
        let rest1 : GoString :=
          match indexByte 0x2F authority0 with
          | some i => authority0.drop i
          | none => []
        match parseAuthority authority with
        | .error e => .error e
        | .ok (user, host) => URL.setPath { url with User := user, Host := host } rest1
      else if url.Scheme ≠ [] ∧ rest.head? = some 0x2F then
        URL.setPath { url with OmitHost := true } rest
      else URL.setPath url rest

/-- The function `url.Parse`. -/
def Parse (rawURL : GoString) : Except GoError URL :=
  match parse (cutByte 0x23 rawURL).1 with
  | .error e => .error (.urlError e)
  | .ok url =>
    if (cutByte 0x23 rawURL).2 = [] then .ok url
    else
      match url.setFragment (cutByte 0x23 rawURL).2 with
      | .error e => .error (.urlError e)
      | .ok url1 => .ok url1

/-- The method `(u *URL) EscapedPath`. -/
def URL.EscapedPath (u : URL) : GoString :=
  if u.RawPath ≠ [] ∧ validEncoded u.RawPath .encodePath
      ∧ unescape u.RawPath .encodePath = .ok u.Path then u.RawPath
  else if u.Path = ascii "*" then ascii "*"
  else escape u.Path .encodePath

/-- The method `(u *URL) EscapedFragment`. -/
def URL.EscapedFragment (u : URL) : GoString :=
  if u.RawFragment ≠ [] ∧ validEncoded u.RawFragment .encodeFragment
      ∧ unescape u.RawFragment .encodeFragment = .ok u.Fragment then u.RawFragment
  else escape u.Fragment .encodeFragment

/-- The method `(u *Userinfo) String`. -/
def Userinfo.String (u : Userinfo) : GoString :=
  escape u.username .encodeUserPassword ++
    (if u.passwordSet then ascii ":" ++ escape u.password .encodeUserPassword else [])

/-- What `(u *URL) String` writes between the scheme and the path: the
authority with its leading slashes. -/
def URL.authorityString (u : URL) : GoString :=
  if u.Scheme ≠ [] ∨ u.Host ≠ [] ∨ u.User ≠ none then
    if u.OmitHost ∧ u.Host = [] ∧ u.User = none then []
    else
      (if u.Host ≠ [] ∨ u.Path ≠ [] ∨ u.User ≠ none then ascii "//" else []) ++
        (match u.User with
          | some ui => ui.String ++ ascii "@"
          | none => []) ++
        (if u.Host ≠ [] then escape u.Host .encodeHost else [])
  else []

/-- The method `(u *URL) String`. -/
def URL.String (u : URL) : GoString :=
  let scheme : GoString := if u.Scheme ≠ [] then u.Scheme ++ ascii ":" else []
  let path := u.EscapedPath
  let slash : GoString :=
    if path ≠ [] ∧ path.head? ≠ some 0x2F ∧ u.Host ≠ [] then ascii "/" else []
  let dot : GoString :=
    if scheme ++ u.authorityString ++ slash = [] ∧ 0x3A ∈ (cutByte 0x2F path).1 then ascii "./"
    else []
  scheme ++
    (if u.Opaque ≠ [] then u.Opaque else u.authorityString ++ slash ++ dot ++ path) ++
    (if u.ForceQuery ∨ u.RawQuery ≠ [] then ascii "?" ++ u.RawQuery else []) ++
    (if u.Fragment ≠ [] then ascii "#" ++ u.EscapedFragment else [])

/-! ## Posting a message (package `net/http`) -/

/-- The request `Post` hands to the HTTP client (the fields of
`http.Request` the program sets).  `URL` is the parsed target; `Header` lists
the header fields in the order they were set. -/
structure Request where
  Method : GoString
  URL : Hipcat.URL
  Header : List (GoString × GoString)
  Body : GoString
  deriving DecidableEq

/-- The target of a request as text: `req.URL.String()`. -/
def Request.target (req : Request) : GoString := req.URL.String

/-- The response of the HTTP client: the status code and what
`ioutil.ReadAll(resp.Body)` returns. -/
structure Response where
  StatusCode : Int
  Body : Except GoError GoString
  deriving DecidableEq

/-- The method `Header.Set`, for a key in canonical form (both keys `Post`
sets are): the value replaces what the key had. -/
def headerSet (h : List (GoString × GoString)) (key value : GoString) :
    List (GoString × GoString) :=
  h.filter (fun kv => kv.1 ≠ key) ++ [(key, value)]

/-- The method `Header.Get`: the value of the key, or the empty string. -/
def headerGet (h : List (GoString × GoString)) (key : GoString) : GoString :=
  match h.find? (fun kv => kv.1 = key) with
  | some kv => kv.2
  | none => []

/-- The function `hasPort` of package `net/http`: the last colon of the
host comes after its last closing bracket. -/
def hasPort (s : GoString) : Bool :=
  match lastIndexByte 0x3A s, lastIndexByte 0x5D s with
  | some i, some j => j < i
  | some _, none => true
  | none, _ => false

/-- The function `removeEmptyPort` of package `net/http`: a host that ends
in the colon of an empty port loses that colon. -/
def removeEmptyPort (host : GoString) : GoString :=
  if hasPort host ∧ host.getLast? = some 0x3A then host.dropLast else host

/-- The function `http.NewRequest`, called with a valid method: it parses
the target with `url.Parse`, fails exactly when that fails, and drops an
empty port from the host of the parsed URL. -/
def NewRequest (method url body : GoString) : Except GoError Request :=
  match Parse url with
  | .error err => .error err
  | .ok u => .ok ⟨method, { u with Host := removeEmptyPort u.Host }, [], body⟩

/-- The verb `%d` of package `fmt` for an `int`. -/
def formatInt (n : Int) : GoString :=
  match n with
  | .ofNat k => (Nat.toDigits 10 k).map Char.toNat
  | .negSucc k => 0x2D :: (Nat.toDigits 10 (k + 1)).map Char.toNat

/-- How a call of `Post` ends. -/
inductive Result where
  /-- It returns `nil`. -/
  | ok
  /-- It returns the error `err`. -/
  | failed (err : GoError)
  /-- It panics: a nil pointer is dereferenced. -/
  | panicked
  deriving DecidableEq

/-- The first half of `Post`, up to the call of `client.Do`: the request it
has built, or how `Post` ended before.  The error of `http.NewRequest` is
never looked at; when there is one, `req` is nil and `req.Header.Set`
panics. -/
def RoomMessage.request (m : RoomMessage) (config : Config) : Except Result Request :=
  match m.Encode with
  | .error err => .error (.failed err)
  | .ok encoded =>
    match Parse (config.HipchatURL ++ ascii "/v2/room/" ++ config.Room ++ ascii "/message") with
    | .error err => .error (.failed err)
    | .ok URL =>
      match NewRequest (ascii "POST") URL.String encoded with
      | .error _ => .error .panicked
      | .ok req =>
        .ok { req with
          Header := headerSet
            (headerSet req.Header (ascii "Authorization") (ascii "Bearer " ++ config.APIToken))
            (ascii "Content-Type") (ascii "application/json") }

/-- Post posts the RoomMessage to the Hipchat server.  `client` stands for
`(&http.Client{}).Do` at the moment of the call. -/
def RoomMessage.Post (m : RoomMessage) (config : Config)
    (client : Request → Except GoError Response) : Result :=
  match m.request config with
  | .error r => r
  | .ok req =>
    match client req with
    | .error err => .failed err
    | .ok resp =>
      if resp.StatusCode ≠ 201 then
        match resp.Body with
        | .error err => .failed err
        | .ok body =>
          .failed (.errorString
            (ascii "Not OK: " ++ formatInt resp.StatusCode ++ ascii ", " ++ body))
      else .ok

/-! ## The program -/

/-- What `pflag.Parse()` makes of the command line, for the flag set of this
program (the single string flag `--room`, shorthand `-r`). -/
inductive CommandLine where
  /-- It rejects the command line and ends the process with status `code`. -/
  | rejected (code : Nat)
  /-- It accepts it: `room` is `some v` when the flag occurs, `v` being the
  value of its last occurrence; `args` are the remaining arguments. -/
  | accepted (room : Option GoString) (args : List GoString)
  deriving DecidableEq

/-- Standard input: the bytes that can be read from it, and the error that
ends the reading (`none` for the end of the file). -/
structure Stdin where
  data : GoString
  err : Option GoError

/-- The constant `bufio.MaxScanTokenSize`, the size the buffer of a scanner
grows to when `Buffer` is never called. -/
def MaxScanTokenSize : Nat := 64 * 1024

/-- The value `bufio.ErrTooLong`. -/
def ErrTooLong : GoError := .errorString (ascii "bufio.Scanner: token too long")

/-- The function `dropCR` of package `bufio`: drops a final carriage
return. -/
def dropCR (data : GoString) : GoString :=
  if data.getLast? = some 0x0D then data.dropLast else data

/-- The pieces the newlines cut the input into, `cur` being the piece read
so far: each piece ends before a newline or, when it is not empty, at the end
of the input. -/
def linesFrom (cur : GoString) : GoString → List GoString
  | [] => if cur = [] then [] else [cur]
  | c :: rest => if c = 0x0A then cur :: linesFrom [] rest else linesFrom (cur ++ [c]) rest

/-- What a scanner with the split function `bufio.ScanLines` returns over
the pieces of the input still to come: the text of the tokens for which `Scan`
returns true, and the value of `Err()` after `Scan` has returned false.  A
piece fits the buffer together with its newline when it is shorter than
`MaxScanTokenSize`; at a piece that does not, `Scan` returns false with
`ErrTooLong`.  A read error ends the input like the end of the file does and
is reported by `Err()`. -/
def scanTokens (err : Option GoError) : List GoString → List GoString × Option GoError
  | [] => ([], err)
  | piece :: rest =>
    if MaxScanTokenSize ≤ piece.length then ([], some ErrTooLong)
    else (dropCR piece :: (scanTokens err rest).1, (scanTokens err rest).2)

/-- The scanner `bufio.NewScanner(os.Stdin)` run to its end. -/
def Stdin.scan (stdin : Stdin) : List GoString × Option GoError :=
  scanTokens stdin.err (linesFrom [] stdin.data)

/-- What one run of the program does: the calls of `Post`, in order, each
with the configuration and the message it was made on, and the exit status. -/
structure Run where
  posts : List (Config × RoomMessage)
  exit : Nat
  deriving DecidableEq

/-- The method `bindFlags` followed by `pflag.Parse()` on an accepted command
line: `StringVarP` binds the flag to `c.Room` with the default `c.Room`, so the
field is overwritten exactly when the flag occurs. -/
def Config.bindFlags (c : Config) (room : Option GoString) : Config :=
  match room with
  | some v => { c with Room := v }
  | none => c

/-- The call `strings.Join(elems, sep)`. -/
def Join (elems : List GoString) (sep : GoString) : GoString :=
  match elems with
  | [] => []
  | [e] => e
  | e :: rest => e ++ sep ++ Join rest sep

/-- The status a run ends with when `Post` does not return `nil`:
`log.Fatalf` exits with 1, a panic with 2. -/
def Result.exitStatus : Result → Nat
  | .ok => 0
  | .failed _ => 1
  | .panicked => 2

/-- The loop `for scanner.Scan()` of `main` over the tokens the scanner
returns, and the check of `scanner.Err()` (here `err`) after it.  `net i` is
the HTTP client as it answers during the call of `Post` that `i` calls
precede. -/
def scanLoop (cfg : Config) (net : Nat → Request → Except GoError Response)
    (err : Option GoError) : Nat → List GoString → Run
  | _, [] =>
    match err with
    | some _ => ⟨[], 1⟩
    | none => ⟨[], 0⟩
  | i, line :: rest =>
    match RoomMessage.Post ⟨line⟩ cfg (net i) with
    | .ok =>
      let r := scanLoop cfg net err (i + 1) rest
      ⟨(cfg, ⟨line⟩) :: r.posts, r.exit⟩
    | res => ⟨[(cfg, ⟨line⟩)], res.exitStatus⟩

/-- The function `main`. -/
def main (w : World) (cmd : CommandLine) (stdin : Stdin)
    (net : Nat → Request → Except GoError Response) : Run :=
  match Config.zero.Load w with
  | .error _ => ⟨[], 1⟩
  | .ok cfg0 =>
    match cmd with
    | .rejected code => ⟨[], code⟩
    | .accepted room args =>
      let cfg := cfg0.bindFlags room
      if cfg.Room = [] then ⟨[], 1⟩
      else if args.length > 0 then
        let msg : RoomMessage := ⟨Join args (ascii " ")⟩
        ⟨[(cfg, msg)], (msg.Post cfg (net 0)).exitStatus⟩
      else scanLoop cfg net stdin.scan.2 0 stdin.scan.1

/-! ## The specification's words

Definitions that follow the specification, to compare the program with. -/

/-- The value a config file gives to the field selected by `sel`: `none` when
the file is absent or does not define the field. -/
def ConfFile.field (sel : FileObject → Option GoString) : ConfFile → Option GoString
  | .object o => sel o
  | _ => none

/-- The value of the last file, in the order system, home, current directory,
that defines the field; the empty string when none does. -/
def lastFileValue (sys home cwd : Option GoString) : GoString :=
  match cwd with
  | some v => v
  | none =>
    match home with
    | some v => v
    | none =>
      match sys with
      | some v => v
      | none => []

/-- The declared precedence for one field: the environment variable when it
is set and non-empty, otherwise the last file that defines the field,
otherwise the empty string. -/
def resolved (envVal sys home cwd : Option GoString) : GoString :=
  match envVal with
  | some v => if v ≠ [] then v else lastFileValue sys home cwd
  | none => lastFileValue sys home cwd

/-- The path of the config file in the home directory, `<home>/.hipcat.conf`:
`<home>` is the home directory of the current user, and is empty when the
current user cannot be found. -/
def homeConfigPath (currentUser : Option GoString) : GoString :=
  match currentUser with
  | some home => home ++ ascii "/.hipcat.conf"
  | none => ascii "/.hipcat.conf"

/-- The three config files of the specification, in their order: system,
home, current directory. -/
def declaredPaths (currentUser : Option GoString) : List GoString :=
  [ascii "/etc/hipcat.conf", homeConfigPath currentUser, ascii "./hipcat.conf"]

/-- The declared precedence for the field selected by `sel`, whose
environment variable is `envName`, in the world `w`. -/
def World.resolvedField (w : World) (envName : GoString)
    (sel : FileObject → Option GoString) : GoString :=
  resolved (w.env envName)
    ((w.file (ascii "/etc/hipcat.conf")).field sel)
    ((w.file (homeConfigPath w.currentUser)).field sel)
    ((w.file (ascii "./hipcat.conf")).field sel)

/-- A config file that is no obstacle to `loadConfigFiles`: it is absent or
it decodes. -/
def ConfFile.fine : ConfFile → Bool
  | .notExist => true
  | .object _ => true
  | _ => false

/-- The number of deliveries the specification allows for the outcomes of
the lines: up to and including the first one that is not a success. -/
def attempts : List Result → Nat
  | [] => 0
  | .ok :: rest => attempts rest + 1
  | _ :: _ => 1

/-- A byte of a registered host name that needs no percent-encoding: a
letter, a digit, a mark or a sub-delimiter. -/
def hostSafe (c : Nat) : Bool := isAlnum c ∨ c ∈ ascii "-_.~!$&'()*+,;="

/-- A byte of a path that needs no percent-encoding: a letter, a digit, a
mark, a sub-delimiter, or one of `/ : @ [ ]`. -/
def pathSafe (c : Nat) : Bool := isAlnum c ∨ c ∈ ascii "-_.~!$&'()*+,;=/:@[]"

/-- A lower-case ASCII letter. -/
def isLower (c : Nat) : Bool := 0x61 ≤ c ∧ c ≤ 0x7A

/-- An ASCII digit. -/
def isDigit (c : Nat) : Bool := 0x30 ≤ c ∧ c ≤ 0x39

/-- A scheme in lower case: a letter, followed by letters, digits and the
characters `+ - .`. -/
def lowerScheme (s : GoString) : Bool :=
  match s with
  | [] => false
  | c :: rest => isLower c ∧
      rest.all (fun d => isLower d ∨ isDigit d ∨ d = 0x2B ∨ d = 0x2D ∨ d = 0x2E)

/-- A port as part of an authority: nothing, or a colon and at least one
digit. -/
def plainPort (p : GoString) : Bool :=
  match p with
  | [] => true
  | c :: digits => c = 0x3A ∧ digits ≠ [] ∧ digits.all isDigit

/-- A path in front of the room's resource: nothing, or a slash followed by
bytes that need no percent-encoding. -/
def plainPrefix (p : GoString) : Bool :=
  match p with
  | [] => true
  | c :: rest => c = 0x2F ∧ rest.all pathSafe

/-- The number an unsigned decimal numeral stands for, read after the value
`acc` of the digits before it; `none` when a byte is not a digit. -/
def decimalFrom (acc : Nat) : GoString → Option Nat
  | [] => some acc
  | c :: rest =>
    if 0x30 ≤ c ∧ c ≤ 0x39 then decimalFrom (acc * 10 + (c - 0x30)) rest else none

/-- The integer a decimal numeral with an optional minus sign stands for. -/
def decimalValue (s : GoString) : Option Int :=
  match s with
  | [] => none
  | c :: rest =>
    if c = 0x2D then
      match rest, decimalFrom 0 rest with
      | _ :: _, some n => some (-(n : Int))
      | _, _ => none
    else
      match decimalFrom 0 (c :: rest) with
      | some n => some (n : Int)
      | none => none

/-- The text `s` with every byte that is not part of a valid UTF-8 encoding
replaced by the three bytes of U+FFFD, `fuel` bounding the steps. -/
def coerceLoop : Nat → GoString → GoString
  | _, [] => []
  | 0, _ :: _ => []
  | fuel + 1, b :: rest =>
    if (DecodeRuneInString (b :: rest)).1 = RuneError ∧ (DecodeRuneInString (b :: rest)).2 = 1
    then [0xEF, 0xBF, 0xBD] ++ coerceLoop fuel rest
    else (b :: rest).take (DecodeRuneInString (b :: rest)).2 ++
      coerceLoop fuel ((b :: rest).drop (DecodeRuneInString (b :: rest)).2)

/-- The text `s` coerced to valid UTF-8: every byte that is not part of a
valid encoding becomes U+FFFD. -/
def coerced (s : GoString) : GoString := coerceLoop s.length s

/-- The lines of standard input that reach the program: the lines before
the first one of 65536 bytes or more, each without its line end (a newline,
or a carriage return and a newline). -/
def deliverable (data : GoString) : List GoString :=
  ((linesFrom [] data).takeWhile (fun l => l.length < 65536)).map dropCR

/-- The outcomes of delivering the lines one after the other, the first
of them as call number `i`: what `Post` returns on each line. -/
def outcomes (cfg : Config) (net : Nat → Request → Except GoError Response) :
    Nat → List GoString → List Result
  | _, [] => []
  | i, line :: rest => RoomMessage.Post ⟨line⟩ cfg (net i) :: outcomes cfg net (i + 1) rest

/-! ## Sample inputs -/

/-- The result of `user.Current()` for a user whose home directory is
`/home/u`. -/
def sampleUser : Option GoString := some (ascii "/home/u")

/-- A world with a system file that sets all three fields, a file in the
home directory of the user that sets the URL, a file in the current directory
that sets the room, and the token in the environment. -/
def sampleWorld : World where
  currentUser := sampleUser
  file := fun p =>
    if p = ascii "/etc/hipcat.conf" then
      .object ⟨some (ascii "https://sys.example.com"), some (ascii "ops"), some (ascii "filetok")⟩
    else if p = ascii "/home/u/.hipcat.conf" then
      .object ⟨some (ascii "https://x.example.com"), none, none⟩
    else if p = ascii "./hipcat.conf" then .object ⟨none, some (ascii "devs"), none⟩
    else .notExist
  env := fun k => if k = ascii "HIPCAT_API_TOKEN" then some (ascii "tok123") else none

/-- The sample world for a process whose current user cannot be found: the
home file is then looked for at `/.hipcat.conf`, where this world has one that
sets the room. -/
def userlessWorld : World where
  currentUser := none
  file := fun p =>
    if p = ascii "/etc/hipcat.conf" then
      .object ⟨some (ascii "https://x.example.com"), some (ascii "ops"), some (ascii "tok123")⟩
    else if p = ascii "/.hipcat.conf" then .object ⟨none, some (ascii "devs"), none⟩
    else .notExist
  env := fun _ => none

/-- A world without config files and without environment variables. -/
def emptyWorld : World where
  currentUser := sampleUser
  file := fun _ => .notExist
  env := fun _ => none

/-- A world whose only source is a file in the current directory that sets
the URL. -/
def urlOnlyWorld : World where
  currentUser := sampleUser
  file := fun p =>
    if p = ascii "./hipcat.conf" then .object ⟨some (ascii "https://x.example.com"), none, none⟩
    else .notExist
  env := fun _ => none

/-- The sample world, except that the system file holds the single
character of an opening brace: the decoder reports `unexpected EOF`. -/
def truncatedWorld : World where
  currentUser := sampleUser
  file := fun p =>
    if p = ascii "/etc/hipcat.conf" then .decodeFails (ascii "unexpected EOF")
    else sampleWorld.file p
  env := sampleWorld.env

/-- The sample world, except that the file in the home directory cannot be
opened. -/
def unreadableWorld : World where
  currentUser := sampleUser
  file := fun p =>
    if p = ascii "/home/u/.hipcat.conf" then .openFails (ascii "permission denied")
    else sampleWorld.file p
  env := sampleWorld.env

/-- The sample world, except that `./hipcat.conf` is a directory: `os.Open`
succeeds and the decoder reports the failed read. -/
def directoryWorld : World where
  currentUser := sampleUser
  file := fun p =>
    if p = ascii "./hipcat.conf" then .decodeFails (ascii "read ./hipcat.conf: is a directory")
    else sampleWorld.file p
  env := sampleWorld.env

/-- The configuration of the specification's delivery example. -/
def sampleConfig : Config :=
  ⟨ascii "https://x.example.com", ascii "devs", ascii "tok123"⟩

/-- The request of the specification's delivery example. -/
def sampleRequest : Request where
  Method := ascii "POST"
  URL := { URL.zero with
    Scheme := ascii "https", Host := ascii "x.example.com",
    Path := ascii "/v2/room/devs/message" }
  Header := [(ascii "Authorization", ascii "Bearer tok123"),
    (ascii "Content-Type", ascii "application/json")]
  Body := ascii "\x7b\"message\":\"hello world\"\x7d"

/-- The sample configuration with a room name that holds a space. -/
def spacedConfig : Config :=
  ⟨ascii "https://x.example.com", ascii "my room", ascii "tok123"⟩

/-- An HTTP client that answers every request with `401` and the body of
the specification's example. -/
def unauthorized : Request → Except GoError Response :=
  fun _ => .ok ⟨401, .ok (ascii "\x7b\"error\":\"unauthorized\"\x7d")⟩

/-- An HTTP client that answers every request with `200` and the body
`ok`. -/
def okay : Request → Except GoError Response :=
  fun _ => .ok ⟨200, .ok (ascii "ok")⟩

/-- A configuration whose base holds a port and a path in front. -/
def portConfig : Config :=
  ⟨ascii "http://chat.example.com:8080/hipchat", ascii "Dev(1)", ascii "tok123"⟩

/-- A configuration whose base ends in the colon of an empty port. -/
def emptyPortConfig : Config :=
  ⟨ascii "https://x.example.com:", ascii "devs", ascii "tok123"⟩

/-- Standard input of three lines, the second of 65536 bytes. -/
def longLineInput : Stdin where
  data := ascii "a" ++ 0x0A :: (List.replicate 65536 0x78 ++ 0x0A :: (ascii "c" ++ [0x0A]))
  err := none

/-- Standard input of the three lines `a`, `b`, `c`. -/
def abcInput : Stdin where
  data := ascii "a\nb\nc\n"
  err := none

/-- An HTTP client that answers every request with `201 Created`. -/
def created : Nat → Request → Except GoError Response :=
  fun _ _ => .ok ⟨201, .ok []⟩

/-! # Theorems -/

theorem getenv_eq (w : World) (k : GoString) : w.Getenv k = (w.env k).getD [] := by
  unfold World.Getenv; cases w.env k <;> rfl

theorem loadEnvVars_eq (w : World) (c : Config) :
    c.loadEnvVars w =
      { HipchatURL := if w.Getenv (ascii "HIPCHAT_URL") = [] then c.HipchatURL else w.Getenv (ascii "HIPCHAT_URL")
        Room := if w.Getenv (ascii "HIPCAT_ROOM") = [] then c.Room else w.Getenv (ascii "HIPCAT_ROOM")
        APIToken := if w.Getenv (ascii "HIPCAT_API_TOKEN") = [] then c.APIToken else w.Getenv (ascii "HIPCAT_API_TOKEN") } := by
  have h1 : ascii "HIPCAT_ROOM" ≠ ascii "HIPCHAT_URL" := by decide
  have h2 : ascii "HIPCAT_API_TOKEN" ≠ ascii "HIPCHAT_URL" := by decide
  have h3 : ascii "HIPCAT_API_TOKEN" ≠ ascii "HIPCAT_ROOM" := by decide
  simp only [Config.loadEnvVars, List.foldl, envStep, h1, h2, h3, if_true, if_false]
  by_cases a : w.Getenv (ascii "HIPCHAT_URL") = [] <;>
  by_cases b : w.Getenv (ascii "HIPCAT_ROOM") = [] <;>
  by_cases d : w.Getenv (ascii "HIPCAT_API_TOKEN") = [] <;> simp [a, b, d]

theorem loadPaths_cons_fine (w : World) (p : GoString) (rest : List GoString) (c : Config)
    (h : (w.file p).fine = true) :
    loadPaths w (p :: rest) c = loadPaths w rest
      { HipchatURL := ((w.file p).field FileObject.hipchat_url).getD c.HipchatURL
        Room := ((w.file p).field FileObject.room).getD c.Room
        APIToken := ((w.file p).field FileObject.api_token).getD c.APIToken } := by
  rw [loadPaths]
  cases hf : w.file p with
  | notExist => simp [ConfFile.field]
  | openFails e => simp [hf, ConfFile.fine] at h
  | decodeFails e => simp [hf, ConfFile.fine] at h
  | object o =>
    simp only [ConfFile.field, FileObject.decodeInto]
    congr 1
    cases o with
    | mk a b d => cases a <;> cases b <;> cases d <;> rfl

theorem resolved_eq (e s h c : Option GoString) :
    resolved e s h c =
      if e.getD [] = [] then c.getD (h.getD (s.getD [])) else e.getD [] := by
  unfold resolved lastFileValue
  cases e with
  | none => cases c <;> cases h <;> cases s <;> simp
  | some v =>
    by_cases hv : v = []
    · cases c <;> cases h <;> cases s <;> simp [hv]
    · simp [hv]

theorem homeConfigPath_eq (w : World) :
    homeConfigPath w.currentUser = homeDir w ++ ascii "/.hipcat.conf" := by
  unfold homeConfigPath homeDir
  cases w.currentUser <;> rfl

theorem declaredPaths_eq (w : World) : declaredPaths w.currentUser = configPaths w := by
  unfold declaredPaths configPaths
  rw [homeConfigPath_eq]

theorem loadConfigFiles_of_fine (w : World)
    (hfiles : ∀ p ∈ configPaths w, (w.file p).fine = true) :
    Config.zero.loadConfigFiles w = .ok
      { HipchatURL := ((w.file (ascii "./hipcat.conf")).field FileObject.hipchat_url).getD
          (((w.file (homeDir w ++ ascii "/.hipcat.conf")).field FileObject.hipchat_url).getD
            (((w.file (ascii "/etc/hipcat.conf")).field FileObject.hipchat_url).getD []))
        Room := ((w.file (ascii "./hipcat.conf")).field FileObject.room).getD
          (((w.file (homeDir w ++ ascii "/.hipcat.conf")).field FileObject.room).getD
            (((w.file (ascii "/etc/hipcat.conf")).field FileObject.room).getD []))
        APIToken := ((w.file (ascii "./hipcat.conf")).field FileObject.api_token).getD
          (((w.file (homeDir w ++ ascii "/.hipcat.conf")).field FileObject.api_token).getD
            (((w.file (ascii "/etc/hipcat.conf")).field FileObject.api_token).getD [])) } := by
  have h1 := hfiles (ascii "/etc/hipcat.conf") (by simp [configPaths])
  have h2 := hfiles (homeDir w ++ ascii "/.hipcat.conf") (by simp [configPaths])
  have h3 := hfiles (ascii "./hipcat.conf") (by simp [configPaths])
  unfold Config.loadConfigFiles configPaths
  rw [loadPaths_cons_fine w _ _ _ h1, loadPaths_cons_fine w _ _ _ h2,
    loadPaths_cons_fine w _ _ _ h3]
  rfl

/-- C1: when each of the three config files (`/etc/hipcat.conf`, the file
`.hipcat.conf` in the home directory of the current user, `./hipcat.conf`) is
absent or decodes, `loadConfigFiles` on the zero configuration succeeds and,
after `loadEnvVars`, each of the three fields holds the value of the declared
precedence: its environment variable when set and non-empty, otherwise the
value of the last of these files that defines it, otherwise the empty string.
A key a file does not define leaves its field as it was. -/
theorem precedence_of_sources (w : World)
    (hfiles : ∀ p ∈ declaredPaths w.currentUser, (w.file p).fine = true) :
    (∃ c, Config.zero.loadConfigFiles w = .ok c ∧
      (c.loadEnvVars w).HipchatURL =
        w.resolvedField (ascii "HIPCHAT_URL") FileObject.hipchat_url ∧
      (c.loadEnvVars w).Room = w.resolvedField (ascii "HIPCAT_ROOM") FileObject.room ∧
      (c.loadEnvVars w).APIToken =
        w.resolvedField (ascii "HIPCAT_API_TOKEN") FileObject.api_token) ∧
    (∀ (o : FileObject) (c : Config),
      (o.hipchat_url = none → (o.decodeInto c).HipchatURL = c.HipchatURL) ∧
      (o.room = none → (o.decodeInto c).Room = c.Room) ∧
      (o.api_token = none → (o.decodeInto c).APIToken = c.APIToken)) := by
  rw [declaredPaths_eq] at hfiles
  constructor
  · refine ⟨_, loadConfigFiles_of_fine w hfiles, ?_, ?_, ?_⟩
    · simp only [World.resolvedField, homeConfigPath_eq, loadEnvVars_eq, resolved_eq,
        getenv_eq]
    · simp only [World.resolvedField, homeConfigPath_eq, loadEnvVars_eq, resolved_eq,
        getenv_eq]
    · simp only [World.resolvedField, homeConfigPath_eq, loadEnvVars_eq, resolved_eq,
        getenv_eq]
  · intro o c
    refine ⟨?_, ?_, ?_⟩
    · intro h
      simp [FileObject.decodeInto, h]
    · intro h
      simp [FileObject.decodeInto, h]
    · intro h
      simp [FileObject.decodeInto, h]

/-- A witness for C1: in the sample world the URL comes from the file in
the home directory of the user, the room from the file in the current
directory and the token from the environment; and for a process without a
current user the room comes from the file `/.hipcat.conf`. -/
theorem precedence_of_sources_witness :
    ((∀ p ∈ declaredPaths sampleWorld.currentUser, (sampleWorld.file p).fine = true) ∧
      ∃ c, Config.zero.loadConfigFiles sampleWorld = .ok c ∧
        c.loadEnvVars sampleWorld =
          ⟨ascii "https://x.example.com", ascii "devs", ascii "tok123"⟩) ∧
    ((∀ p ∈ declaredPaths userlessWorld.currentUser, (userlessWorld.file p).fine = true) ∧
      ∃ c, Config.zero.loadConfigFiles userlessWorld = .ok c ∧
        c.loadEnvVars userlessWorld =
          ⟨ascii "https://x.example.com", ascii "devs", ascii "tok123"⟩) := by
  constructor
  · refine ⟨by decide, ?_⟩
    obtain ⟨⟨c, hc, h1, h2, h3⟩, -⟩ := precedence_of_sources sampleWorld (by decide)
    refine ⟨c, hc, ?_⟩
    have e1 : (c.loadEnvVars sampleWorld).HipchatURL = ascii "https://x.example.com" := by
      rw [h1]; decide
    have e2 : (c.loadEnvVars sampleWorld).Room = ascii "devs" := by rw [h2]; decide
    have e3 : (c.loadEnvVars sampleWorld).APIToken = ascii "tok123" := by rw [h3]; decide
    cases hcc : c.loadEnvVars sampleWorld with
    | mk a b d => rw [hcc] at e1 e2 e3; simp at e1 e2 e3; simp [e1, e2, e3]
  · refine ⟨by decide, ?_⟩
    obtain ⟨⟨c, hc, h1, h2, h3⟩, -⟩ := precedence_of_sources userlessWorld (by decide)
    refine ⟨c, hc, ?_⟩
    have e1 : (c.loadEnvVars userlessWorld).HipchatURL = ascii "https://x.example.com" := by
      rw [h1]; decide
    have e2 : (c.loadEnvVars userlessWorld).Room = ascii "devs" := by rw [h2]; decide
    have e3 : (c.loadEnvVars userlessWorld).APIToken = ascii "tok123" := by rw [h3]; decide
    cases hcc : c.loadEnvVars userlessWorld with
    | mk a b d => rw [hcc] at e1 e2 e3; simp at e1 e2 e3; simp [e1, e2, e3]

/-! ### Failing config files -/

theorem loadPaths_append_fine (w : World) (pre rest : List GoString) (c : Config)
    (h : ∀ q ∈ pre, (w.file q).fine = true) :
    ∃ c1, loadPaths w (pre ++ rest) c = loadPaths w rest c1 := by
  induction pre generalizing c with
  | nil => exact ⟨c, rfl⟩
  | cons q pre ih =>
    rw [List.cons_append, loadPaths_cons_fine w q _ c (h q (by simp))]
    exact ih _ (fun r hr => h r (by simp [hr]))

theorem loadPaths_error_iff (w : World) (ps : List GoString) (c : Config) :
    (∃ e, loadPaths w ps c = .error e) ↔ ∃ p ∈ ps, (w.file p).fine = false := by
  induction ps generalizing c with
  | nil => simp [loadPaths]
  | cons p ps ih =>
    rw [loadPaths]
    cases hf : w.file p with
    | notExist => simp [ih, ConfFile.fine, hf]
    | openFails e => simp [ConfFile.fine, hf]
    | decodeFails e => simp [ConfFile.fine, hf]
    | object o => simp [ih, ConfFile.fine, hf]

theorem fine_eq_false_iff (f : ConfFile) :
    f.fine = false ↔ (∃ err, f = .openFails err) ∨ (∃ msg, f = .decodeFails msg) := by
  cases f <;> simp [ConfFile.fine]

theorem loadPaths_first_failure (w : World) (pre post : List GoString) (p : GoString)
    (c : Config) (hpre : ∀ q ∈ pre, (w.file q).fine = true) :
    (∀ err, w.file p = .openFails err →
      loadPaths w (pre ++ p :: post) c = .error (.pathError (ascii "open") p err)) ∧
    (∀ msg, w.file p = .decodeFails msg →
      loadPaths w (pre ++ p :: post) c = .error (.decodeError msg)) := by
  obtain ⟨c1, hc1⟩ := loadPaths_append_fine w pre (p :: post) c hpre
  constructor
  · intro err h; rw [hc1, loadPaths, h]
  · intro msg h; rw [hc1, loadPaths, h]

theorem loadPaths_skip_notExist (w : World) (ps : List GoString) (p : GoString) (c : Config)
    (h : w.file p = .notExist) :
    loadPaths w ps c = loadPaths w (ps.filter (fun q => q ≠ p)) c := by
  induction ps generalizing c with
  | nil => rfl
  | cons q ps ih =>
    by_cases hq : q = p
    · subst hq
      rw [loadPaths, h]
      simp [ih]
    · have : (q :: ps).filter (fun q => q ≠ p) = q :: ps.filter (fun q => q ≠ p) := by
        simp [hq]
      rw [this, loadPaths, loadPaths]
      cases w.file q <;> simp [ih]

theorem configPaths_congr (w w2 : World) (h : w2.currentUser = w.currentUser) :
    configPaths w2 = configPaths w := by
  simp [configPaths, homeDir, h]

theorem load_of_loadConfigFiles_error (w : World) (c : Config) (e : GoError)
    (h : c.loadConfigFiles w = .error e) : c.Load w = .error e := by
  unfold Config.Load; rw [h]

/-- C8: `loadConfigFiles` returns an error exactly when one of the three
files exists and cannot be opened or decoded; a file that does not exist is
skipped; `Load` returns the error of `loadConfigFiles`; and that error is the
same in every world that agrees on the files up to the failing one, whatever
the later files and the environment hold. -/
theorem loadConfigFiles_error_iff (w : World) (c : Config) :
    ((∃ e, c.loadConfigFiles w = .error e) ↔
      ∃ p ∈ configPaths w, (∃ err, w.file p = .openFails err) ∨ (∃ msg, w.file p = .decodeFails msg)) ∧
    (∀ p ∈ configPaths w, w.file p = .notExist →
      c.loadConfigFiles w = loadPaths w ((configPaths w).filter (fun q => q ≠ p)) c) ∧
    (∀ e, c.loadConfigFiles w = .error e → c.Load w = .error e) ∧
    (∀ (pre post : List GoString) (p : GoString), configPaths w = pre ++ p :: post →
      (∀ q ∈ pre, (w.file q).fine = true) → (w.file p).fine = false →
      ∃ e, c.Load w = .error e ∧
        ∀ w2 : World, w2.currentUser = w.currentUser →
          (∀ q ∈ pre ++ [p], w2.file q = w.file q) → c.Load w2 = .error e) := by
  refine ⟨?_, ?_, load_of_loadConfigFiles_error w c, ?_⟩
  · unfold Config.loadConfigFiles
    rw [loadPaths_error_iff]
    simp only [fine_eq_false_iff]
  · intro p _ hp
    exact loadPaths_skip_notExist w _ p c hp
  · intro pre post p hsplit hpre hp
    have key : ∀ w2 : World, configPaths w2 = pre ++ p :: post →
        (∀ q ∈ pre, (w2.file q).fine = true) → w2.file p = w.file p →
        ∃ e, c.Load w2 = .error e ∧ ∀ err, loadPaths w (pre ++ p :: post) c = .error err →
          err = e := by
      intro w2 hs2 hpre2 hp2
      have hA := loadPaths_first_failure w pre post p c hpre
      have hB := loadPaths_first_failure w2 pre post p c hpre2
      rw [hp2] at hB
      rcases (fine_eq_false_iff _).1 hp with ⟨err, he⟩ | ⟨msg, he⟩
      · refine ⟨.pathError (ascii "open") p err, load_of_loadConfigFiles_error w2 c _ ?_, ?_⟩
        · unfold Config.loadConfigFiles; rw [hs2]; exact hB.1 err he
        · intro e2 h2; rw [hA.1 err he] at h2; cases h2; rfl
      · refine ⟨.decodeError msg, load_of_loadConfigFiles_error w2 c _ ?_, ?_⟩
        · unfold Config.loadConfigFiles; rw [hs2]; exact hB.2 msg he
        · intro e2 h2; rw [hA.2 msg he] at h2; cases h2; rfl
    obtain ⟨e, he, huniq⟩ := key w hsplit hpre rfl
    refine ⟨e, he, ?_⟩
    intro w2 hu hfiles
    obtain ⟨e2, he2, huniq2⟩ := key w2 (by rw [configPaths_congr w w2 hu, hsplit])
      (fun q hq => by rw [hfiles q (by simp [hq])]; exact hpre q hq)
      (hfiles p (by simp))
    have hle : loadPaths w (pre ++ p :: post) c = .error e := by
      have := he
      unfold Config.Load Config.loadConfigFiles at this
      rw [hsplit] at this
      cases hl : loadPaths w (pre ++ p :: post) c with
      | error x => rw [huniq x hl]
      | ok x =>
        have hex := (loadPaths_error_iff w (pre ++ p :: post) c).2 ⟨p, by simp, hp⟩
        rw [hl] at hex
        obtain ⟨_, h⟩ := hex
        cases h
    rw [he2, huniq2 e hle]

/-- A witness for C8: the error for the unreadable home file stays when the
environment changes. -/
theorem loadConfigFiles_error_iff_witness :
    ∃ e, Config.zero.Load unreadableWorld = .error e ∧
      Config.zero.Load { unreadableWorld with env := fun _ => some (ascii "x") } = .error e :=
  match (loadConfigFiles_error_iff unreadableWorld Config.zero).2.2.2
      [ascii "/etc/hipcat.conf"] [ascii "./hipcat.conf"] (ascii "/home/u/.hipcat.conf")
      (by decide) (by decide) (by decide) with
  | ⟨e, he, h2⟩ => ⟨e, he, h2 _ rfl (fun _ _ => rfl)⟩

/-! ### Missing fields -/

theorem load_of_fine (w : World) (hfiles : ∀ p ∈ configPaths w, (w.file p).fine = true) :
    Config.zero.Load w =
      if w.resolvedField (ascii "HIPCHAT_URL") FileObject.hipchat_url = [] then
        .error (.errorString missingHipchatURL)
      else if w.resolvedField (ascii "HIPCAT_API_TOKEN") FileObject.api_token = [] then
        .error (.errorString missingAPIToken)
      else .ok ⟨w.resolvedField (ascii "HIPCHAT_URL") FileObject.hipchat_url,
        w.resolvedField (ascii "HIPCAT_ROOM") FileObject.room,
        w.resolvedField (ascii "HIPCAT_API_TOKEN") FileObject.api_token⟩ := by
  unfold Config.Load
  rw [loadConfigFiles_of_fine w hfiles]
  simp only [World.resolvedField, homeConfigPath_eq, loadEnvVars_eq, resolved_eq, getenv_eq]

/-- C9, as amended: when every present file decodes, `Load` fails with an
error that names `HipchatURL`, `HIPCHAT_URL`, `/etc/hipcat.conf` and
`./hipcat.conf` whenever no source supplies the URL, and with an error that
names `APIToken`, `HIPCAT_API_TOKEN`, `/etc/hipcat.conf` and `./hipcat.conf`
when the URL is supplied and no source supplies the token. -/
theorem load_missing_field (w : World)
    (hfiles : ∀ p ∈ declaredPaths w.currentUser, (w.file p).fine = true) :
    (w.resolvedField (ascii "HIPCHAT_URL") FileObject.hipchat_url = [] →
      ∃ e text, Config.zero.Load w = .error e ∧ e.Error = some text ∧
        ascii "HipchatURL" <:+: text ∧ ascii "HIPCHAT_URL" <:+: text ∧
        ascii "/etc/hipcat.conf" <:+: text ∧ ascii "./hipcat.conf" <:+: text) ∧
    (w.resolvedField (ascii "HIPCHAT_URL") FileObject.hipchat_url ≠ [] →
      w.resolvedField (ascii "HIPCAT_API_TOKEN") FileObject.api_token = [] →
      ∃ e text, Config.zero.Load w = .error e ∧ e.Error = some text ∧
        ascii "APIToken" <:+: text ∧ ascii "HIPCAT_API_TOKEN" <:+: text ∧
        ascii "/etc/hipcat.conf" <:+: text ∧ ascii "./hipcat.conf" <:+: text) := by
  rw [declaredPaths_eq] at hfiles
  constructor
  · intro h
    refine ⟨.errorString missingHipchatURL, missingHipchatURL, ?_, rfl, ?_⟩
    · rw [load_of_fine w hfiles, if_pos h]
    · decide!
  · intro h1 h2
    refine ⟨.errorString missingAPIToken, missingAPIToken, ?_, rfl, ?_⟩
    · rw [load_of_fine w hfiles, if_neg h1, if_pos h2]
    · decide!

/-- A witness for C9: with the URL in a file and no token anywhere, `Load`
fails with an error that names the token and its environment variable. -/
theorem load_missing_field_witness :
    ∃ e text, Config.zero.Load urlOnlyWorld = .error e ∧ e.Error = some text ∧
      ascii "APIToken" <:+: text ∧ ascii "HIPCAT_API_TOKEN" <:+: text ∧
      ascii "/etc/hipcat.conf" <:+: text ∧ ascii "./hipcat.conf" <:+: text :=
  (load_missing_field urlOnlyWorld (by decide)).2 (by decide) (by decide)

/-- C9 as stated fails twice.  With no source at all nothing supplies
`api_token`, yet the error `Load` returns does not name `APIToken`.  And with
the URL as only source the error for the token does not hold the path of the
file in the home directory that `Load` looked for, `/home/u/.hipcat.conf`. -/
theorem load_missing_field_names_less :
    ((∀ p ∈ declaredPaths emptyWorld.currentUser, (emptyWorld.file p).fine = true) ∧
      emptyWorld.resolvedField (ascii "HIPCAT_API_TOKEN") FileObject.api_token = [] ∧
      ∃ e text, Config.zero.Load emptyWorld = .error e ∧ e.Error = some text ∧
        ¬ ascii "APIToken" <:+: text ∧ ¬ ascii "HIPCAT_API_TOKEN" <:+: text) ∧
    ((∀ p ∈ declaredPaths urlOnlyWorld.currentUser, (urlOnlyWorld.file p).fine = true) ∧
      urlOnlyWorld.resolvedField (ascii "HIPCHAT_URL") FileObject.hipchat_url ≠ [] ∧
      urlOnlyWorld.resolvedField (ascii "HIPCAT_API_TOKEN") FileObject.api_token = [] ∧
      homeConfigPath urlOnlyWorld.currentUser ∈ configPaths urlOnlyWorld ∧
      ∃ e text, Config.zero.Load urlOnlyWorld = .error e ∧ e.Error = some text ∧
        ¬ homeConfigPath urlOnlyWorld.currentUser <:+: text) := by
  refine ⟨⟨by decide, by decide, .errorString missingHipchatURL, missingHipchatURL,
    by decide, rfl, by decide!, by decide!⟩,
    ⟨by decide, by decide, by decide, by decide, .errorString missingAPIToken, missingAPIToken,
    by decide, rfl, by decide!⟩⟩

/-! ### The path in the error -/

/-- C10, as amended: for the first of the three config files
(`/etc/hipcat.conf`, the file `.hipcat.conf` in the home directory of the
current user, `./hipcat.conf`) that fails, `Load` returns the `*os.PathError`
of `os.Open`, whose text is `open `, the path, `: ` and the cause and so
holds the path, when the file cannot be opened; when the file cannot be
decoded it returns the error of the decoder unchanged, and the text of the
error is the message of the decoder and nothing else. -/
theorem load_error_of_failing_file (w : World) (c : Config) (pre post : List GoString)
    (p : GoString) (hsplit : declaredPaths w.currentUser = pre ++ p :: post)
    (hpre : ∀ q ∈ pre, (w.file q).fine = true) :
    (∀ err, w.file p = .openFails err →
      ∃ e text, c.Load w = .error e ∧ e.Error = some text ∧
        text = ascii "open " ++ p ++ ascii ": " ++ err ∧ p <:+: text) ∧
    (∀ msg, w.file p = .decodeFails msg →
      ∃ e text, c.Load w = .error e ∧ e.Error = some text ∧ text = msg) := by
  rw [declaredPaths_eq] at hsplit
  have h := loadPaths_first_failure w pre post p c hpre
  constructor
  · intro err he
    refine ⟨.pathError (ascii "open") p err, ascii "open " ++ p ++ ascii ": " ++ err,
      load_of_loadConfigFiles_error w c _ ?_, ?_, rfl, ?_⟩
    · unfold Config.loadConfigFiles
      rw [hsplit]
      exact h.1 err he
    · simp [GoError.Error, ascii]
    · exact ⟨ascii "open ", ascii ": " ++ err, by simp⟩
  · intro msg he
    refine ⟨.decodeError msg, msg, load_of_loadConfigFiles_error w c _ ?_, rfl, rfl⟩
    unfold Config.loadConfigFiles
    rw [hsplit]
    exact h.2 msg he

/-- A witness for C10: the home file cannot be opened, and the text of the
error holds its path; and `./hipcat.conf` is a directory, where the message
of the decoder is the text of the error. -/
theorem load_error_of_failing_file_witness :
    (∃ e text, Config.zero.Load unreadableWorld = .error e ∧ e.Error = some text ∧
      text = ascii "open " ++ ascii "/home/u/.hipcat.conf" ++ ascii ": "
        ++ ascii "permission denied" ∧
      ascii "/home/u/.hipcat.conf" <:+: text) ∧
    (∃ e text, Config.zero.Load directoryWorld = .error e ∧ e.Error = some text ∧
      text = ascii "read ./hipcat.conf: is a directory") :=
  ⟨(load_error_of_failing_file unreadableWorld Config.zero
      [ascii "/etc/hipcat.conf"] [ascii "./hipcat.conf"] (ascii "/home/u/.hipcat.conf")
      (by decide) (by decide)).1 (ascii "permission denied") (by decide),
   (load_error_of_failing_file directoryWorld Config.zero
      [ascii "/etc/hipcat.conf", ascii "/home/u/.hipcat.conf"] [] (ascii "./hipcat.conf")
      (by decide) (by decide)).2 (ascii "read ./hipcat.conf: is a directory") (by decide)⟩

/-- C10 as stated fails: a system file that does not parse makes `Load`
return the error of the decoder, and its text does not hold the path. -/
theorem load_parse_error_omits_path :
    truncatedWorld.file (ascii "/etc/hipcat.conf") = .decodeFails (ascii "unexpected EOF") ∧
    ∃ e text, Config.zero.Load truncatedWorld = .error e ∧ e.Error = some text ∧
      ¬ ascii "/etc/hipcat.conf" <:+: text := by
  refine ⟨by decide, .decodeError (ascii "unexpected EOF"), ascii "unexpected EOF",
    by decide, rfl, by decide!⟩

/-! ### Delivery -/

theorem sample_request :
    RoomMessage.request ⟨ascii "hello world"⟩ sampleConfig = .ok sampleRequest := by
  decide!

theorem post_of_response (m : RoomMessage) (config : Config)
    (client : Request → Except GoError Response) (req : Request) (resp : Response)
    (hreq : m.request config = .ok req) (hresp : client req = .ok resp) :
    m.Post config client =
      if resp.StatusCode ≠ 201 then
        match resp.Body with
        | .error err => .failed err
        | .ok body =>
          .failed (.errorString
            (ascii "Not OK: " ++ formatInt resp.StatusCode ++ ascii ", " ++ body))
      else .ok := by
  unfold RoomMessage.Post
  rw [hreq]
  dsimp only
  rw [hresp]

theorem digitChar_toNat (k : Nat) (h : k < 10) : (Nat.digitChar k).toNat = 0x30 + k := by
  revert k
  decide

theorem decimalFrom_toDigitsCore (fuel : Nat) :
    ∀ (n : Nat) (ds : List Char), n < fuel →
      decimalFrom 0 ((Nat.toDigitsCore 10 fuel n ds).map Char.toNat) =
        decimalFrom n (ds.map Char.toNat) := by
  induction fuel with
  | zero => intro n ds h; omega
  | succ fuel ih =>
    intro n ds h
    have hd := digitChar_toNat (n % 10) (Nat.mod_lt n (by decide))
    have hlo : 0x30 ≤ 0x30 + n % 10 ∧ 0x30 + n % 10 ≤ 0x39 := by omega
    rw [Nat.toDigitsCore]
    by_cases h0 : n / 10 = 0
    · simp only [h0, if_true, List.map_cons, hd, decimalFrom, hlo, and_self]
      congr 1
      omega
    · simp only [h0, if_false]
      rw [ih (n / 10) _ (by omega)]
      simp only [List.map_cons, hd, decimalFrom, hlo, and_self, if_true]
      congr 1
      omega

theorem toDigitsCore_ne_nil (fuel : Nat) :
    ∀ (n : Nat) (ds : List Char), fuel ≠ 0 ∨ ds ≠ [] → Nat.toDigitsCore 10 fuel n ds ≠ [] := by
  induction fuel with
  | zero =>
    intro n ds h
    rcases h with h | h
    · exact absurd rfl h
    · simpa [Nat.toDigitsCore] using h
  | succ fuel ih =>
    intro n ds _
    rw [Nat.toDigitsCore]
    by_cases h0 : n / 10 = 0
    · simp [h0]
    · simp only [h0, if_false]
      exact ih _ _ (Or.inr (by simp))

theorem decimalFrom_digit_head (c : Nat) (rest : GoString) (n : Nat)
    (h : decimalFrom 0 (c :: rest) = some n) : c ≠ 0x2D := by
  intro hc
  subst hc
  simp [decimalFrom] at h

theorem decimalFrom_toDigits (k : Nat) :
    ∃ c rest, (Nat.toDigits 10 k).map Char.toNat = c :: rest ∧
      decimalFrom 0 (c :: rest) = some k ∧ c ≠ 0x2D := by
  have hval : decimalFrom 0 ((Nat.toDigits 10 k).map Char.toNat) = some k := by
    unfold Nat.toDigits
    rw [decimalFrom_toDigitsCore (k + 1) k [] (by omega)]
    rfl
  have hne : Nat.toDigits 10 k ≠ [] := toDigitsCore_ne_nil (k + 1) k [] (Or.inl (by omega))
  cases hL : (Nat.toDigits 10 k).map Char.toNat with
  | nil =>
    rw [List.map_eq_nil_iff] at hL
    exact absurd hL hne
  | cons c rest =>
    rw [hL] at hval
    exact ⟨c, rest, rfl, hval, decimalFrom_digit_head c rest k hval⟩

/-- The decimal numeral `%d` writes for a status reads back as that status. -/
theorem decimalValue_formatInt (n : Int) : decimalValue (formatInt n) = some n := by
  cases n with
  | ofNat k =>
    obtain ⟨c, rest, hL, hval, hc⟩ := decimalFrom_toDigits k
    unfold formatInt
    simp only [hL]
    unfold decimalValue
    simp only [hc, if_false, hval]
    rfl
  | negSucc k =>
    obtain ⟨c, rest, hL, hval, hc⟩ := decimalFrom_toDigits (k + 1)
    unfold formatInt
    simp only [hL]
    unfold decimalValue
    simp only [if_true, hval]
    rfl

/-- C3: when the transport returns a response to `Post`, `Post` succeeds
exactly when the status code is 201; for any other status `s` whose body `b`
can be read it returns the error with the text `Not OK: s, b`: the words
`Not OK: `, the decimal numeral of `s` (which reads back as `s`), a comma and
a space, and the body `b`. -/
theorem post_ok_iff_created (m : RoomMessage) (config : Config)
    (client : Request → Except GoError Response) (req : Request) (resp : Response)
    (hreq : m.request config = .ok req) (hresp : client req = .ok resp) :
    (m.Post config client = .ok ↔ resp.StatusCode = 201) ∧
    (∀ body, resp.Body = .ok body → resp.StatusCode ≠ 201 →
      ∃ e numeral, m.Post config client = .failed e ∧
        e.Error = some (ascii "Not OK: " ++ numeral ++ ascii ", " ++ body) ∧
        decimalValue numeral = some resp.StatusCode) := by
  have h := post_of_response m config client req resp hreq hresp
  constructor
  · rw [h]
    by_cases hs : resp.StatusCode = 201
    · simp [hs]
    · simp only [ne_eq, hs, not_false_eq_true, if_true, iff_false]
      cases resp.Body <;> simp
  · intro body hb hs
    refine ⟨.errorString (ascii "Not OK: " ++ formatInt resp.StatusCode ++ ascii ", " ++ body),
      formatInt resp.StatusCode, ?_, rfl, decimalValue_formatInt _⟩
    rw [h, if_pos hs, hb]

/-- A witness for C3: the answer `401` with the body of the example, and the
answer `200` with the body `ok`, both failures that carry status and body. -/
theorem post_ok_iff_created_witness :
    RoomMessage.Post ⟨ascii "hello world"⟩ sampleConfig unauthorized =
      .failed (.errorString (ascii "Not OK: 401, \x7b\"error\":\"unauthorized\"\x7d")) ∧
    RoomMessage.Post ⟨ascii "hello world"⟩ sampleConfig okay =
      .failed (.errorString (ascii "Not OK: 200, ok")) ∧
    (RoomMessage.Post ⟨ascii "hello world"⟩ sampleConfig (created 0) = .ok ↔
      (201 : Int) = 201) := by
  have h1 := (post_ok_iff_created ⟨ascii "hello world"⟩ sampleConfig unauthorized
    sampleRequest _ sample_request rfl).2 _ rfl (by decide)
  have h2 := (post_ok_iff_created ⟨ascii "hello world"⟩ sampleConfig okay
    sampleRequest _ sample_request rfl).2 _ rfl (by decide)
  refine ⟨?_, ?_, (post_ok_iff_created ⟨ascii "hello world"⟩ sampleConfig (created 0)
    sampleRequest _ sample_request rfl).1⟩
  · obtain ⟨e, numeral, he, -, -⟩ := h1
    rw [he]
    have : RoomMessage.Post ⟨ascii "hello world"⟩ sampleConfig unauthorized =
        .failed (.errorString (ascii "Not OK: 401, \x7b\"error\":\"unauthorized\"\x7d")) := by
      decide!
    rw [he] at this
    exact this
  · obtain ⟨e, numeral, he, -, -⟩ := h2
    rw [he]
    have : RoomMessage.Post ⟨ascii "hello world"⟩ sampleConfig okay =
        .failed (.errorString (ascii "Not OK: 200, ok")) := by
      decide!
    rw [he] at this
    exact this

/-! ### The loop over standard input -/

theorem scanLoop_posts (cfg : Config) (net : Nat → Request → Except GoError Response)
    (err : Option GoError) (i : Nat) (lines : List GoString) :
    (scanLoop cfg net err i lines).posts =
      (lines.take (attempts (outcomes cfg net i lines))).map (fun l => (cfg, ⟨l⟩)) := by
  induction lines generalizing i with
  | nil => cases err <;> rfl
  | cons line rest ih =>
    rw [scanLoop, outcomes]
    cases h : RoomMessage.Post ⟨line⟩ cfg (net i) with
    | ok => simp [attempts, ih]
    | failed e => simp [attempts]
    | panicked => simp [attempts]

theorem outcomes_length (cfg : Config) (net : Nat → Request → Except GoError Response)
    (i : Nat) (lines : List GoString) : (outcomes cfg net i lines).length = lines.length := by
  induction lines generalizing i with
  | nil => rfl
  | cons l rest ih => simp [outcomes, ih]

theorem attempts_all_ok (rs : List Result) (h : ∀ r ∈ rs, r = .ok) :
    attempts rs = rs.length := by
  induction rs with
  | nil => rfl
  | cons r rs ih =>
    have hr := h r (by simp)
    subst hr
    simp [attempts, ih (fun r hr => h r (by simp [hr]))]

theorem attempts_first_failure (pre post : List Result) (r : Result)
    (hpre : ∀ x ∈ pre, x = .ok) (hr : r ≠ .ok) :
    attempts (pre ++ r :: post) = pre.length + 1 := by
  induction pre with
  | nil => cases r <;> simp_all [attempts]
  | cons x pre ih =>
    have hx := hpre x (by simp)
    subst hx
    simp [attempts, ih (fun y hy => hpre y (by simp [hy]))]

theorem main_of_load (w : World) (cfg0 : Config) (room : Option GoString)
    (args : List GoString) (stdin : Stdin) (net : Nat → Request → Except GoError Response)
    (hload : Config.zero.Load w = .ok cfg0) :
    main w (.accepted room args) stdin net =
      if (cfg0.bindFlags room).Room = [] then ⟨[], 1⟩
      else if args.length > 0 then
        ⟨[(cfg0.bindFlags room, ⟨Join args (ascii " ")⟩)],
          (RoomMessage.Post ⟨Join args (ascii " ")⟩ (cfg0.bindFlags room) (net 0)).exitStatus⟩
      else scanLoop (cfg0.bindFlags room) net stdin.scan.2 0 stdin.scan.1 := by
  unfold main
  rw [hload]

theorem linesFrom_line (cur l rest : GoString) (h : 0x0A ∉ l) :
    linesFrom cur (l ++ 0x0A :: rest) = (cur ++ l) :: linesFrom [] rest := by
  induction l generalizing cur with
  | nil => simp [linesFrom]
  | cons c l ih =>
    simp only [List.mem_cons, not_or] at h
    rw [List.cons_append, linesFrom, if_neg (fun e => h.1 e.symm), ih _ h.2]
    simp

theorem linesFrom_last (cur l : GoString) (h : 0x0A ∉ l) :
    linesFrom cur l = if cur ++ l = [] then [] else [cur ++ l] := by
  induction l generalizing cur with
  | nil => simp [linesFrom]
  | cons c l ih =>
    simp only [List.mem_cons, not_or] at h
    rw [linesFrom, if_neg (fun e => h.1 e.symm), ih _ h.2]
    simp

theorem scanTokens_fst (err : Option GoError) (pieces : List GoString) :
    (scanTokens err pieces).1 = (pieces.takeWhile (fun l => l.length < 65536)).map dropCR := by
  induction pieces with
  | nil => rfl
  | cons p rest ih =>
    rw [scanTokens]
    by_cases h : MaxScanTokenSize ≤ p.length
    · have h2 : ¬ p.length < 65536 := by
        unfold MaxScanTokenSize at h
        omega
      simp [h, h2]
    · have h2 : p.length < 65536 := by
        unfold MaxScanTokenSize at h
        omega
      simp [h, h2, ih]

theorem scanTokens_snd (err : Option GoError) (pieces : List GoString) :
    (scanTokens err pieces).2 =
      if ∀ l ∈ pieces, l.length < 65536 then err else some ErrTooLong := by
  induction pieces with
  | nil => simp [scanTokens]
  | cons p rest ih =>
    rw [scanTokens]
    by_cases h : MaxScanTokenSize ≤ p.length
    · have h2 : ¬ p.length < 65536 := by
        unfold MaxScanTokenSize at h
        omega
      simp [h, h2]
    · have h2 : p.length < 65536 := by
        unfold MaxScanTokenSize at h
        omega
      simp only [h, if_false, ih, List.mem_cons, forall_eq_or_imp, h2, true_and]

theorem scan_tokens (stdin : Stdin) : stdin.scan.1 = deliverable stdin.data := by
  unfold Stdin.scan deliverable
  exact scanTokens_fst _ _

theorem takeWhile_all {α : Type} (p : α → Bool) (l : List α) (h : ∀ x ∈ l, p x = true) :
    l.takeWhile p = l := by
  induction l with
  | nil => rfl
  | cons x l ih =>
    rw [List.takeWhile_cons, h x (by simp), ih (fun y hy => h y (by simp [hy]))]
    rfl

/-- C4, as amended: without message arguments and with a complete
configuration, `main` calls `Post` on the lines of standard input in their
order, once each and without their line ends, up to and including the first
line whose delivery does not succeed; the lines are those before the first
line of 65536 bytes or more, where the scanner stops, and all lines when no
line is that long; no call follows a failed delivery, and an error of reading
standard input changes none of the calls.  A line is what stands before a
newline, or after the last newline when that is not empty. -/
theorem main_posts_until_first_failure (w : World) (cfg0 : Config) (room : Option GoString)
    (stdin : Stdin) (net : Nat → Request → Except GoError Response)
    (hload : Config.zero.Load w = .ok cfg0) (hroom : (cfg0.bindFlags room).Room ≠ []) :
    (main w (.accepted room []) stdin net).posts =
        ((deliverable stdin.data).take
          (attempts (outcomes (cfg0.bindFlags room) net 0 (deliverable stdin.data)))).map
          (fun l => (cfg0.bindFlags room, ⟨l⟩)) ∧
    (∀ err : Option GoError,
      (main w (.accepted room []) ⟨stdin.data, err⟩ net).posts =
        (main w (.accepted room []) stdin net).posts) ∧
    ((∀ l ∈ linesFrom [] stdin.data, l.length < 65536) →
      deliverable stdin.data = (linesFrom [] stdin.data).map dropCR) ∧
    ((∀ r ∈ outcomes (cfg0.bindFlags room) net 0 (deliverable stdin.data), r = .ok) →
      attempts (outcomes (cfg0.bindFlags room) net 0 (deliverable stdin.data))
        = (deliverable stdin.data).length) ∧
    (∀ (pre post : List Result) (r : Result),
      outcomes (cfg0.bindFlags room) net 0 (deliverable stdin.data) = pre ++ r :: post →
      (∀ x ∈ pre, x = .ok) → r ≠ .ok →
      attempts (outcomes (cfg0.bindFlags room) net 0 (deliverable stdin.data))
        = pre.length + 1) ∧
    (∀ l rest : GoString, 0x0A ∉ l →
      linesFrom [] (l ++ 0x0A :: rest) = l :: linesFrom [] rest ∧
      linesFrom [] l = if l = [] then [] else [l]) := by
  refine ⟨?_, ?_, ?_, ?_, ?_, ?_⟩
  · rw [main_of_load w cfg0 room [] stdin net hload, if_neg hroom]
    simp only [List.length_nil, gt_iff_lt, lt_self_iff_false, if_false]
    rw [scanLoop_posts, scan_tokens]
  · intro err
    rw [main_of_load w cfg0 room [] stdin net hload,
      main_of_load w cfg0 room [] ⟨stdin.data, err⟩ net hload]
    simp only [if_neg hroom, List.length_nil, gt_iff_lt, lt_self_iff_false, if_false]
    rw [scanLoop_posts, scanLoop_posts, scan_tokens, scan_tokens]
  · intro h
    unfold deliverable
    rw [takeWhile_all _ _ (fun l hl => by simpa using h l hl)]
  · intro h
    rw [attempts_all_ok _ h, outcomes_length]
  · intro pre post r hsplit hpre hr
    rw [hsplit]
    exact attempts_first_failure pre post r hpre hr
  · intro l rest hl
    constructor
    · simpa using linesFrom_line [] l rest hl
    · simpa using linesFrom_last [] l hl

theorem sample_load : Config.zero.Load sampleWorld = .ok sampleConfig := by
  decide

/-- A witness for C4: the lines `a`, `b`, `c` with every delivery answered
by `201` give three calls of `Post`, on `a`, `b` and `c` in this order. -/
theorem main_posts_until_first_failure_witness :
    (main sampleWorld (.accepted none []) abcInput created).posts =
      [(sampleConfig, ⟨ascii "a"⟩), (sampleConfig, ⟨ascii "b"⟩), (sampleConfig, ⟨ascii "c"⟩)] := by
  have h := (main_posts_until_first_failure sampleWorld sampleConfig none
    abcInput created sample_load (by decide)).1
  rw [h]
  decide!

theorem post_created (m : RoomMessage) (i : Nat) :
    RoomMessage.Post m sampleConfig (created i) = .ok := by
  have hP : Parse (sampleConfig.HipchatURL ++ ascii "/v2/room/" ++ sampleConfig.Room ++
      ascii "/message") = .ok sampleRequest.URL := by
    decide!
  have hS : sampleRequest.URL.String = ascii "https://x.example.com/v2/room/devs/message" := by
    decide!
  have hN : Parse (ascii "https://x.example.com/v2/room/devs/message") = .ok sampleRequest.URL := by
    decide!
  unfold RoomMessage.Post RoomMessage.request RoomMessage.Encode Marshal NewRequest
  simp only [hP, hS, hN]
  rfl

theorem longLine_pieces :
    linesFrom [] longLineInput.data = [ascii "a", List.replicate 65536 0x78, ascii "c"] := by
  have h1 : (0x0A : Nat) ∉ ascii "a" := by decide
  have h2 : (0x0A : Nat) ∉ List.replicate 65536 0x78 := by
    intro h
    have := List.eq_of_mem_replicate h
    omega
  have h3 : (0x0A : Nat) ∉ ascii "c" := by decide
  have e : longLineInput.data = ascii "a" ++ 0x0A :: (List.replicate 65536 0x78 ++
      0x0A :: (ascii "c" ++ 0x0A :: [])) := rfl
  rw [e, linesFrom_line [] _ _ h1, linesFrom_line [] _ _ h2, linesFrom_line [] _ _ h3]
  simp only [List.nil_append, linesFrom, if_true]

/-- C4 as stated fails: standard input has the three lines `a`, a line of
65536 bytes, and `c`, and every delivery succeeds, yet `main` calls `Post`
once, on `a`, and exits with status 1: the scanner stops at the long line. -/
theorem long_line_stops_delivery :
    linesFrom [] longLineInput.data = [ascii "a", List.replicate 65536 0x78, ascii "c"] ∧
    outcomes sampleConfig created 0 (linesFrom [] longLineInput.data) = [.ok, .ok, .ok] ∧
    Config.zero.Load sampleWorld = .ok sampleConfig ∧
    main sampleWorld (.accepted none []) longLineInput created =
      ⟨[(sampleConfig, ⟨ascii "a"⟩)], 1⟩ := by
  refine ⟨longLine_pieces, ?_, sample_load, ?_⟩
  · rw [longLine_pieces]
    simp only [outcomes, post_created]
  · have hroom : (sampleConfig.bindFlags none).Room ≠ [] := by decide
    rw [main_of_load sampleWorld sampleConfig none [] longLineInput created sample_load,
      if_neg hroom]
    simp only [List.length_nil, gt_iff_lt, lt_self_iff_false, if_false]
    have hscan : longLineInput.scan = ([ascii "a"], some ErrTooLong) := by
      unfold Stdin.scan
      rw [longLine_pieces]
      have ha : ¬ MaxScanTokenSize ≤ (ascii "a").length := by decide
      have hx : MaxScanTokenSize ≤ (List.replicate 65536 0x78).length := by
        rw [List.length_replicate]
        decide
      rw [scanTokens, if_neg ha, scanTokens, if_pos hx]
      rfl
    rw [hscan]
    show scanLoop (sampleConfig.bindFlags none) created (some ErrTooLong) 0 [ascii "a"] = _
    rw [scanLoop]
    have hp := post_created ⟨ascii "a"⟩ 0
    have hc : sampleConfig.bindFlags none = sampleConfig := rfl
    rw [hc, hp]
    rfl

/-! ### The configuration in use -/

theorem scanLoop_posts_config (cfg : Config) (net : Nat → Request → Except GoError Response)
    (err : Option GoError) (i : Nat) (lines : List GoString) :
    ∀ cm ∈ (scanLoop cfg net err i lines).posts, cm.1 = cfg := by
  rw [scanLoop_posts]
  intro cm hcm
  simp only [List.mem_map] at hcm
  obtain ⟨l, -, rfl⟩ := hcm
  rfl

theorem load_ok_fields (w : World) (c : Config) (h : Config.zero.Load w = .ok c) :
    c.HipchatURL ≠ [] ∧ c.APIToken ≠ [] := by
  unfold Config.Load at h
  cases hl : Config.zero.loadConfigFiles w with
  | error e => rw [hl] at h; cases h
  | ok c1 =>
    rw [hl] at h
    dsimp only at h
    split at h
    · cases h
    · split at h
      · cases h
      · cases h
        constructor <;> assumption

theorem main_posts_config (w : World) (cmd : CommandLine) (stdin : Stdin)
    (net : Nat → Request → Except GoError Response) :
    ∀ cm ∈ (main w cmd stdin net).posts,
      ∃ cfg0 room args, Config.zero.Load w = .ok cfg0 ∧ cmd = .accepted room args ∧
        cm.1 = cfg0.bindFlags room ∧ cm.1.Room ≠ [] := by
  intro cm hcm
  cases hl : Config.zero.Load w with
  | error e => simp [main, hl] at hcm
  | ok cfg0 =>
    cases cmd with
    | rejected code => simp [main, hl] at hcm
    | accepted room args =>
      rw [main_of_load w cfg0 room args stdin net hl] at hcm
      refine ⟨cfg0, room, args, rfl, rfl, ?_⟩
      by_cases hr : (cfg0.bindFlags room).Room = []
      · simp [hr] at hcm
      · rw [if_neg hr] at hcm
        have : cm.1 = cfg0.bindFlags room := by
          split at hcm
          · simp at hcm; rw [hcm]
          · exact scanLoop_posts_config _ net stdin.scan.2 0 stdin.scan.1 cm hcm
        exact ⟨this, by rw [this]; exact hr⟩

theorem bindFlags_fields (c : Config) (room : Option GoString) :
    (c.bindFlags room).HipchatURL = c.HipchatURL ∧ (c.bindFlags room).APIToken = c.APIToken ∧
    (c.bindFlags room).Room = (match room with
      | some v => v
      | none => c.Room) := by
  cases room <;> simp [Config.bindFlags]

/-- C5: every call of `Post` that `main` makes is on a configuration whose
three fields are non-empty.  `Load` returns an error whenever `HipchatURL` or
`APIToken` is empty after the files and the environment have been merged, so a
successful `Load` leaves both non-empty; and `main` exits with status 1 without
a call of `Post` when `Load` fails or when `Room` is empty after the flag. -/
theorem no_post_without_full_config (w : World) (cmd : CommandLine) (stdin : Stdin)
    (net : Nat → Request → Except GoError Response) :
    (∀ cm ∈ (main w cmd stdin net).posts,
      cm.1.HipchatURL ≠ [] ∧ cm.1.Room ≠ [] ∧ cm.1.APIToken ≠ []) ∧
    (∀ c, Config.zero.loadConfigFiles w = .ok c →
      (c.loadEnvVars w).HipchatURL = [] ∨ (c.loadEnvVars w).APIToken = [] →
      ∃ e, Config.zero.Load w = .error e) ∧
    (∀ c, Config.zero.Load w = .ok c → c.HipchatURL ≠ [] ∧ c.APIToken ≠ []) ∧
    (∀ e, Config.zero.Load w = .error e → main w cmd stdin net = ⟨[], 1⟩) ∧
    (∀ cfg0 room args, Config.zero.Load w = .ok cfg0 → cmd = .accepted room args →
      (cfg0.bindFlags room).Room = [] → main w cmd stdin net = ⟨[], 1⟩) := by
  refine ⟨?_, ?_, load_ok_fields w, ?_, ?_⟩
  · intro cm hcm
    obtain ⟨cfg0, room, args, hl, -, hc, hr⟩ := main_posts_config w cmd stdin net cm hcm
    have hf := load_ok_fields w cfg0 hl
    have hb := bindFlags_fields cfg0 room
    rw [hc, hb.1, hb.2.1]
    rw [hc] at hr
    exact ⟨hf.1, hr, hf.2⟩
  · intro c hc hempty
    unfold Config.Load
    rw [hc]
    dsimp only
    rcases hempty with h | h
    · exact ⟨_, by rw [if_pos h]⟩
    · by_cases hu : (c.loadEnvVars w).HipchatURL = []
      · exact ⟨_, by rw [if_pos hu]⟩
      · exact ⟨_, by rw [if_neg hu, if_pos h]⟩
  · intro e he
    unfold main
    rw [he]
  · intro cfg0 room args hl hcmd hr
    rw [hcmd, main_of_load w cfg0 room args stdin net hl, if_pos hr]

/-- A witness for C5: with the URL as only source the program ends with
status 1 and posts nothing. -/
theorem no_post_without_full_config_witness :
    main urlOnlyWorld (.accepted (some (ascii "devs")) [ascii "hello"]) ⟨[], none⟩ created
      = ⟨[], 1⟩ :=
  (no_post_without_full_config urlOnlyWorld (.accepted (some (ascii "devs")) [ascii "hello"])
    ⟨[], none⟩ created).2.2.2.1 (.errorString missingAPIToken) (by decide)

/-! ### The room flag -/

/-- C6, as amended: after a successful `Load` that resolved the room `r`,
the room of every delivery is the value of the room flag when the flag is
given, empty value included, and `r` when the flag is absent; a flag with an
empty value leaves no room, and `main` exits with status 1 without a
delivery. -/
theorem room_flag_overrides (w : World) (cfg0 : Config) (room : Option GoString)
    (args : List GoString) (stdin : Stdin) (net : Nat → Request → Except GoError Response)
    (hload : Config.zero.Load w = .ok cfg0) :
    (∀ cm ∈ (main w (.accepted room args) stdin net).posts,
      cm.1 = cfg0.bindFlags room ∧
      cm.1.Room = (match room with
        | some v => v
        | none => cfg0.Room)) ∧
    (room = some [] → main w (.accepted room args) stdin net = ⟨[], 1⟩) ∧
    ((cfg0.bindFlags room).Room ≠ [] → args ≠ [] →
      (main w (.accepted room args) stdin net).posts =
        [(cfg0.bindFlags room, ⟨Join args (ascii " ")⟩)]) := by
  refine ⟨?_, ?_, ?_⟩
  · intro cm hcm
    obtain ⟨c, r, a, hl, hcmd, hc, -⟩ :=
      main_posts_config w (.accepted room args) stdin net cm hcm
    rw [hload] at hl
    cases hl
    cases hcmd
    exact ⟨hc, by rw [hc]; exact (bindFlags_fields cfg0 room).2.2⟩
  · intro hr
    subst hr
    rw [main_of_load w cfg0 _ args stdin net hload, if_pos (by rfl)]
  · intro hr ha
    rw [main_of_load w cfg0 room args stdin net hload, if_neg hr]
    have : args.length > 0 := List.length_pos.2 ha
    rw [if_pos this]

/-- A witness for C6: the flag `-r ops` replaces the resolved room `devs`. -/
theorem room_flag_overrides_witness :
    (main sampleWorld (.accepted (some (ascii "ops")) [ascii "hello", ascii "world"])
        ⟨[], none⟩ created).posts =
      [(⟨ascii "https://x.example.com", ascii "ops", ascii "tok123"⟩, ⟨ascii "hello world"⟩)] :=
  (room_flag_overrides sampleWorld sampleConfig (some (ascii "ops"))
    [ascii "hello", ascii "world"] ⟨[], none⟩ created sample_load).2.2 (by decide) (by decide)

/-- C6 as stated fails: `Load` resolved the room `devs`, the flag is given
with an empty value, and the room in use is empty, not `devs`: the program
exits with status 1 and delivers nothing, while without the flag it delivers
to `devs`. -/
theorem empty_room_flag_overrides :
    Config.zero.Load sampleWorld = .ok sampleConfig ∧ sampleConfig.Room = ascii "devs" ∧
    (sampleConfig.bindFlags (some [])).Room = [] ∧
    main sampleWorld (.accepted (some []) [ascii "hello"]) ⟨[], none⟩ created = ⟨[], 1⟩ ∧
    main sampleWorld (.accepted none [ascii "hello"]) ⟨[], none⟩ created
      = ⟨[(sampleConfig, ⟨ascii "hello"⟩)], 0⟩ := by
  refine ⟨by decide, by decide, by decide, by decide, by decide!⟩

/-! ### UTF-8 sequences -/

theorem decodeRune_ascii (s0 : Nat) (rest : GoString) (h : s0 < 0x80) :
    DecodeRuneInString (s0 :: rest) = (s0, 1) := by
  simp [DecodeRuneInString, h]

theorem decodeRune_two (s0 s1 : Nat) (tail : GoString)
    (h0 : 0xC2 ≤ s0 ∧ s0 ≤ 0xDF) (h1 : 0x80 ≤ s1 ∧ s1 ≤ 0xBF) :
    DecodeRuneInString (s0 :: s1 :: tail) = ((s0 % 32) * 64 + s1 % 64, 2) := by
  have hf : firstInfo s0 = some (2, 0x80, 0xBF) := by
    unfold firstInfo
    rw [if_pos h0]
  have hlt : ¬ s0 < 0x80 := by omega
  have hs1 : ¬ (s1 < 0x80 ∨ 0xBF < s1) := by omega
  simp [DecodeRuneInString, hf, hlt, hs1]

theorem decodeRune_three (s0 s1 s2 : Nat) (tail : GoString)
    (h : wellFormed3 s0 s1) (h2 : 0x80 ≤ s2 ∧ s2 ≤ 0xBF) :
    DecodeRuneInString (s0 :: s1 :: s2 :: tail) =
      ((s0 % 16) * 4096 + (s1 % 64) * 64 + s2 % 64, 3) := by
  have hlt : ¬ s0 < 0x80 := by unfold wellFormed3 at h; omega
  have hs2 : ¬ (s2 < 0x80 ∨ 0xBF < s2) := by omega
  rcases h with h | h | h | h
  · have hf : firstInfo s0 = some (3, 0xA0, 0xBF) := by
      unfold firstInfo
      rw [if_neg (by omega), if_pos h.1]
    have hs1 : ¬ (s1 < 0xA0 ∨ 0xBF < s1) := by omega
    simp [DecodeRuneInString, hf, hlt, hs1, hs2]
  · have hf : firstInfo s0 = some (3, 0x80, 0xBF) := by
      unfold firstInfo
      rw [if_neg (by omega), if_neg (by omega), if_pos ⟨h.1, h.2.1⟩]
    have hs1 : ¬ (s1 < 0x80 ∨ 0xBF < s1) := by omega
    simp [DecodeRuneInString, hf, hlt, hs1, hs2]
  · have hf : firstInfo s0 = some (3, 0x80, 0x9F) := by
      unfold firstInfo
      rw [if_neg (by omega), if_neg (by omega), if_neg (by omega), if_pos h.1]
    have hs1 : ¬ (s1 < 0x80 ∨ 0x9F < s1) := by omega
    simp [DecodeRuneInString, hf, hlt, hs1, hs2]
  · have hf : firstInfo s0 = some (3, 0x80, 0xBF) := by
      unfold firstInfo
      rw [if_neg (by omega), if_neg (by omega), if_neg (by omega), if_neg (by omega),
        if_pos ⟨h.1, h.2.1⟩]
    have hs1 : ¬ (s1 < 0x80 ∨ 0xBF < s1) := by omega
    simp [DecodeRuneInString, hf, hlt, hs1, hs2]

theorem decodeRune_four (s0 s1 s2 s3 : Nat) (tail : GoString)
    (h : wellFormed4 s0 s1) (h2 : 0x80 ≤ s2 ∧ s2 ≤ 0xBF) (h3 : 0x80 ≤ s3 ∧ s3 ≤ 0xBF) :
    DecodeRuneInString (s0 :: s1 :: s2 :: s3 :: tail) =
      ((s0 % 8) * 262144 + (s1 % 64) * 4096 + (s2 % 64) * 64 + s3 % 64, 4) := by
  have hlt : ¬ s0 < 0x80 := by unfold wellFormed4 at h; omega
  have hs2 : ¬ (s2 < 0x80 ∨ 0xBF < s2) := by omega
  have hs3 : ¬ (s3 < 0x80 ∨ 0xBF < s3) := by omega
  rcases h with h | h | h
  · have hf : firstInfo s0 = some (4, 0x90, 0xBF) := by
      unfold firstInfo
      rw [if_neg (by omega), if_neg (by omega), if_neg (by omega), if_neg (by omega),
        if_neg (by omega), if_pos h.1]
    have hs1 : ¬ (s1 < 0x90 ∨ 0xBF < s1) := by omega
    simp [DecodeRuneInString, hf, hlt, hs1, hs2, hs3]
  · have hf : firstInfo s0 = some (4, 0x80, 0xBF) := by
      unfold firstInfo
      rw [if_neg (by omega), if_neg (by omega), if_neg (by omega), if_neg (by omega),
        if_neg (by omega), if_neg (by omega), if_pos ⟨h.1, h.2.1⟩]
    have hs1 : ¬ (s1 < 0x80 ∨ 0xBF < s1) := by omega
    simp [DecodeRuneInString, hf, hlt, hs1, hs2, hs3]
  · have hf : firstInfo s0 = some (4, 0x80, 0x8F) := by
      unfold firstInfo
      rw [if_neg (by omega), if_neg (by omega), if_neg (by omega), if_neg (by omega),
        if_neg (by omega), if_neg (by omega), if_neg (by omega), if_pos h.1]
    have hs1 : ¬ (s1 < 0x80 ∨ 0x8F < s1) := by omega
    simp [DecodeRuneInString, hf, hlt, hs1, hs2, hs3]

theorem firstInfo_cases (s0 : Nat) :
    firstInfo s0 = none ∨
    (firstInfo s0 = some (2, 0x80, 0xBF) ∧ 0xC2 ≤ s0 ∧ s0 ≤ 0xDF) ∨
    (∃ lo hi, firstInfo s0 = some (3, lo, hi) ∧
      ∀ s1, lo ≤ s1 → s1 ≤ hi → wellFormed3 s0 s1) ∨
    (∃ lo hi, firstInfo s0 = some (4, lo, hi) ∧
      ∀ s1, lo ≤ s1 → s1 ≤ hi → wellFormed4 s0 s1) := by
  unfold firstInfo wellFormed3 wellFormed4
  split_ifs with h1 h2 h3 h4 h5 h6 h7 h8
  · right; left; exact ⟨rfl, h1⟩
  · right; right; left; exact ⟨_, _, rfl, fun s1 a b => by omega⟩
  · right; right; left; exact ⟨_, _, rfl, fun s1 a b => by omega⟩
  · right; right; left; exact ⟨_, _, rfl, fun s1 a b => by omega⟩
  · right; right; left; exact ⟨_, _, rfl, fun s1 a b => by omega⟩
  · right; right; right; exact ⟨_, _, rfl, fun s1 a b => by omega⟩
  · right; right; right; exact ⟨_, _, rfl, fun s1 a b => by omega⟩
  · right; right; right; exact ⟨_, _, rfl, fun s1 a b => by omega⟩
  · left; rfl

/-- What `DecodeRuneInString` can return on a lead byte at or above `0x80`. -/
theorem decodeRune_cases (s0 : Nat) (rest : GoString) (h : ¬ s0 < 0x80) :
    DecodeRuneInString (s0 :: rest) = (RuneError, 1) ∨
    (∃ s1 tail, rest = s1 :: tail ∧ (0xC2 ≤ s0 ∧ s0 ≤ 0xDF) ∧ (0x80 ≤ s1 ∧ s1 ≤ 0xBF)) ∨
    (∃ s1 s2 tail, rest = s1 :: s2 :: tail ∧ wellFormed3 s0 s1 ∧ (0x80 ≤ s2 ∧ s2 ≤ 0xBF)) ∨
    (∃ s1 s2 s3 tail, rest = s1 :: s2 :: s3 :: tail ∧ wellFormed4 s0 s1 ∧
      (0x80 ≤ s2 ∧ s2 ≤ 0xBF) ∧ (0x80 ≤ s3 ∧ s3 ≤ 0xBF)) := by
  rcases firstInfo_cases s0 with hf | ⟨hf, h0⟩ | ⟨lo, hi, hf, hw⟩ | ⟨lo, hi, hf, hw⟩
  · left
    simp [DecodeRuneInString, h, hf]
  · rcases rest with _ | ⟨s1, tail⟩
    · left
      simp [DecodeRuneInString, h, hf]
    · by_cases hs1 : s1 < 0x80 ∨ 0xBF < s1
      · left
        simp [DecodeRuneInString, h, hf, hs1]
      · right; left
        exact ⟨s1, tail, rfl, h0, by omega⟩
  · rcases rest with _ | ⟨s1, _ | ⟨s2, tail⟩⟩
    · left
      simp [DecodeRuneInString, h, hf]
    · left
      simp [DecodeRuneInString, h, hf]
    · by_cases hs1 : s1 < lo ∨ hi < s1
      · left
        simp [DecodeRuneInString, h, hf, hs1]
      · by_cases hs2 : s2 < 0x80 ∨ 0xBF < s2
        · left
          simp [DecodeRuneInString, h, hf, hs1, hs2]
        · right; right; left
          exact ⟨s1, s2, tail, rfl, hw s1 (by omega) (by omega), by omega⟩
  · rcases rest with _ | ⟨s1, _ | ⟨s2, _ | ⟨s3, tail⟩⟩⟩
    · left
      simp [DecodeRuneInString, h, hf]
    · left
      simp [DecodeRuneInString, h, hf]
    · left
      simp [DecodeRuneInString, h, hf]
    · by_cases hs1 : s1 < lo ∨ hi < s1
      · left
        simp [DecodeRuneInString, h, hf, hs1]
      · by_cases hs2 : s2 < 0x80 ∨ 0xBF < s2
        · left
          simp [DecodeRuneInString, h, hf, hs1, hs2]
        · by_cases hs3 : s3 < 0x80 ∨ 0xBF < s3
          · left
            simp [DecodeRuneInString, h, hf, hs1, hs2, hs3]
          · right; right; right
            exact ⟨s1, s2, s3, tail, rfl, hw s1 (by omega) (by omega), by omega, by omega⟩

theorem encodeRune_two (s0 s1 : Nat) (h0 : 0xC2 ≤ s0 ∧ s0 ≤ 0xDF)
    (h1 : 0x80 ≤ s1 ∧ s1 ≤ 0xBF) : EncodeRune ((s0 % 32) * 64 + s1 % 64) = [s0, s1] := by
  unfold EncodeRune
  rw [if_neg (by omega), if_pos (by omega)]
  congr 1
  · omega
  · congr 1
    omega

theorem encodeRune_three (s0 s1 s2 : Nat) (h : wellFormed3 s0 s1)
    (h2 : 0x80 ≤ s2 ∧ s2 ≤ 0xBF) :
    EncodeRune ((s0 % 16) * 4096 + (s1 % 64) * 64 + s2 % 64) = [s0, s1, s2] := by
  unfold wellFormed3 at h
  unfold EncodeRune
  rw [if_neg (by omega), if_neg (by omega), if_neg (by omega), if_pos (by omega)]
  congr 1
  · omega
  · congr 1
    · omega
    · congr 1
      omega

theorem encodeRune_four (s0 s1 s2 s3 : Nat) (h : wellFormed4 s0 s1)
    (h2 : 0x80 ≤ s2 ∧ s2 ≤ 0xBF) (h3 : 0x80 ≤ s3 ∧ s3 ≤ 0xBF) :
    EncodeRune ((s0 % 8) * 262144 + (s1 % 64) * 4096 + (s2 % 64) * 64 + s3 % 64)
      = [s0, s1, s2, s3] := by
  unfold wellFormed4 at h
  unfold EncodeRune
  rw [if_neg (by omega), if_neg (by omega), if_neg (by omega), if_neg (by omega)]
  congr 1
  · omega
  · congr 1
    · omega
    · congr 1
      · omega
      · congr 1
        omega

/-! ### Encoding and decoding a string literal -/

theorem unhexDigit_hex (k : Nat) (h : k < 16) : unhexDigit (hex k) = some k := by
  revert k
  decide

theorem getu4_escape (a b c d : Nat) (more : GoString)
    (ha : a < 16) (hb : b < 16) (hc : c < 16) (hd : d < 16) :
    getu4 (0x5C :: 0x75 :: hex a :: hex b :: hex c :: hex d :: more)
      = some (((a * 16 + b) * 16 + c) * 16 + d) := by
  simp [getu4, unhexDigit_hex, ha, hb, hc, hd]

theorem unquoteLoop_plain (c : Nat) (fuel : Nat) (more : GoString)
    (h1 : 0x20 ≤ c) (h2 : c < 0x80) (h3 : c ≠ 0x22) (h4 : c ≠ 0x5C) :
    unquoteLoop (fuel + 1) (c :: more) = consumed [c] (unquoteLoop fuel more) := by
  have h5 : ¬ c < 0x20 := by omega
  simp [unquoteLoop, h2, h3, h4, h5]

theorem unquoteLoop_appendASCII (b : Nat) (hb : b < 0x80) (fuel : Nat) (more : GoString) :
    unquoteLoop (fuel + 1) (appendASCII b ++ more) = consumed [b] (unquoteLoop fuel more) := by
  unfold appendASCII
  split_ifs with h1 h2 h3 h4 h5 h6 h7
  · simp only [htmlSafeSet, decide_eq_true_eq] at h1
    exact unquoteLoop_plain b fuel more h1.1 hb h1.2.2.1 h1.2.2.2.2.2.2
  · rcases h2 with h2 | h2 <;> subst h2 <;> simp [unquoteLoop]
  · subst h3
    simp [unquoteLoop, ascii]
  · subst h4
    simp [unquoteLoop, ascii]
  · subst h5
    simp [unquoteLoop, ascii]
  · subst h6
    simp [unquoteLoop, ascii]
  · subst h7
    simp [unquoteLoop, ascii]
  · have hz : (0x30 : Nat) = hex 0 := by decide
    have e : ascii "\\u00" ++ [hex (b / 16), hex (b % 16)] ++ more =
        0x5C :: 0x75 :: hex 0 :: hex 0 :: hex (b / 16) :: hex (b % 16) :: more := by
      rw [← hz]
      simp [ascii]
    rw [e]
    have hg := getu4_escape 0 0 (b / 16) (b % 16) more (by omega) (by omega) (by omega)
      (by omega)
    have hv : ((0 * 16 + 0) * 16 + b / 16) * 16 + b % 16 = b := by omega
    rw [hv] at hg
    have hsur : ¬ (0xD800 ≤ b ∧ b < 0xE000) := by omega
    have henc : EncodeRune b = [b] := by
      unfold EncodeRune
      rw [if_pos (by omega)]
    rw [unquoteLoop]
    simp [hg, escapedRune, hsur, henc]

theorem appendASCII_length_pos (b : Nat) : 1 ≤ (appendASCII b).length := by
  unfold appendASCII
  split_ifs <;> simp [ascii]

theorem unquoteLoop_multibyte (b : Nat) (more : GoString) (u : Nat) (hb : ¬ b < 0x80) :
    unquoteLoop (u + 1) (b :: more) =
      consumed (EncodeRune (DecodeRuneInString (b :: more)).1)
        (unquoteLoop u ((b :: more).drop (DecodeRuneInString (b :: more)).2)) := by
  have h1 : b ≠ 0x22 := by omega
  have h2 : b ≠ 0x5C := by omega
  have h3 : ¬ b < 0x20 := by omega
  simp [unquoteLoop, h1, h2, h3, hb]

theorem unquoteLoop_separator (c : Nat) (hc : c = 0x2028 ∨ c = 0x2029) (u : Nat)
    (more : GoString) :
    unquoteLoop (u + 1) (ascii "\\u202" ++ [hex (c % 16)] ++ more) =
      consumed (EncodeRune c) (unquoteLoop u more) := by
  have h2 : (0x32 : Nat) = hex 2 := by decide
  have h0 : (0x30 : Nat) = hex 0 := by decide
  have e : ascii "\\u202" ++ [hex (c % 16)] ++ more =
      0x5C :: 0x75 :: hex 2 :: hex 0 :: hex 2 :: hex (c % 16) :: more := by
    rw [← h2, ← h0]
    simp [ascii]
  rw [e]
  have hg := getu4_escape 2 0 2 (c % 16) more (by omega) (by omega) (by omega) (by omega)
  have hv : ((2 * 16 + 0) * 16 + 2) * 16 + c % 16 = c := by omega
  rw [hv] at hg
  have hsur : ¬ (0xD800 ≤ c ∧ c < 0xE000) := by omega
  rw [unquoteLoop]
  simp [hg, escapedRune, hsur]

theorem unquoteLoop_replacement (u : Nat) (more : GoString) :
    unquoteLoop (u + 1) (ascii "\\ufffd" ++ more) =
      consumed [0xEF, 0xBF, 0xBD] (unquoteLoop u more) := by
  have hf : (0x66 : Nat) = hex 15 := by decide
  have hd : (0x64 : Nat) = hex 13 := by decide
  have e : ascii "\\ufffd" ++ more =
      0x5C :: 0x75 :: hex 15 :: hex 15 :: hex 15 :: hex 13 :: more := by
    rw [← hf, ← hd]
    simp [ascii]
  rw [e]
  have hg := getu4_escape 15 15 15 13 more (by omega) (by omega) (by omega) (by omega)
  have hE : EncodeRune 0xFFFD = [0xEF, 0xBF, 0xBD] := by decide
  rw [unquoteLoop]
  simp [hg, escapedRune, hE]

/-- What one step of the encoder, of the coercion and of the validity check
does at the head of a text that is not empty. -/
theorem step_cases (b : Nat) (tl : GoString) :
    ((DecodeRuneInString (b :: tl)).1 = RuneError ∧ (DecodeRuneInString (b :: tl)).2 = 1 ∧
      ¬ b < 0x80) ∨
    (¬ ((DecodeRuneInString (b :: tl)).1 = RuneError ∧ (DecodeRuneInString (b :: tl)).2 = 1) ∧
      ∃ chunk rest, b :: tl = chunk ++ rest ∧
        chunk.length = (DecodeRuneInString (b :: tl)).2 ∧ chunk ≠ [] ∧
        ∀ (f u : Nat) (more : GoString),
          (∃ out, appendStringLoop (f + 1) (b :: tl) = out ++ appendStringLoop f rest ∧
            out ≠ [] ∧
            unquoteLoop (u + 1) (out ++ more) = consumed chunk (unquoteLoop u more))) := by
  by_cases hb : b < 0x80
  · right
    have hd := decodeRune_ascii b tl hb
    have hne : b ≠ RuneError := by
      unfold RuneError
      omega
    refine ⟨by simp [hd, hne], [b], tl, rfl, by simp [hd], by simp, ?_⟩
    intro f u more
    refine ⟨appendASCII b, ?_, ?_, unquoteLoop_appendASCII b hb u more⟩
    · rw [appendStringLoop, if_pos hb]
    · intro h
      have := appendASCII_length_pos b
      rw [h] at this
      simp at this
  · rcases decodeRune_cases b tl hb with he | ⟨s1, tail, rfl, h0, h1⟩ |
      ⟨s1, s2, tail, rfl, hw, h2⟩ | ⟨s1, s2, s3, tail, rfl, hw, h2, h3⟩
    · left
      exact ⟨by rw [he], by rw [he], hb⟩
    · right
      have hd := decodeRune_two b s1 tail h0 h1
      refine ⟨by simp [hd], [b, s1], tail, rfl, by simp [hd], by simp, ?_⟩
      intro f u more
      refine ⟨[b, s1], ?_, by simp, ?_⟩
      · rw [appendStringLoop, if_neg hb]
        simp only [hd]
        rw [if_neg (by omega), if_neg (by omega)]
        rfl
      · show unquoteLoop (u + 1) (b :: s1 :: more) = _
        rw [unquoteLoop_multibyte b _ u hb, decodeRune_two b s1 _ h0 h1,
          encodeRune_two b s1 h0 h1]
        rfl
    · right
      have hd := decodeRune_three b s1 s2 tail hw h2
      have hE := encodeRune_three b s1 s2 hw h2
      refine ⟨by simp [hd], [b, s1, s2], tail, rfl, by simp [hd], by simp, ?_⟩
      intro f u more
      by_cases hsep : (b % 16) * 4096 + (s1 % 64) * 64 + s2 % 64 = 0x2028 ∨
          (b % 16) * 4096 + (s1 % 64) * 64 + s2 % 64 = 0x2029
      · refine ⟨ascii "\\u202" ++ [hex (((b % 16) * 4096 + (s1 % 64) * 64 + s2 % 64) % 16)],
          ?_, by simp [ascii], ?_⟩
        · rw [appendStringLoop, if_neg hb]
          simp only [hd]
          rw [if_neg (by omega), if_pos hsep]
          rfl
        · rw [unquoteLoop_separator _ hsep, hE]
      · refine ⟨[b, s1, s2], ?_, by simp, ?_⟩
        · rw [appendStringLoop, if_neg hb]
          simp only [hd]
          rw [if_neg (by omega), if_neg hsep]
          rfl
        · show unquoteLoop (u + 1) (b :: s1 :: s2 :: more) = _
          rw [unquoteLoop_multibyte b _ u hb, decodeRune_three b s1 s2 _ hw h2, hE]
          rfl
    · right
      have hd := decodeRune_four b s1 s2 s3 tail hw h2 h3
      have hE := encodeRune_four b s1 s2 s3 hw h2 h3
      have hbig : 0x10000 ≤ (b % 8) * 262144 + (s1 % 64) * 4096 + (s2 % 64) * 64 + s3 % 64 := by
        unfold wellFormed4 at hw
        omega
      refine ⟨by simp [hd], [b, s1, s2, s3], tail, rfl, by simp [hd], by simp, ?_⟩
      intro f u more
      refine ⟨[b, s1, s2, s3], ?_, by simp, ?_⟩
      · rw [appendStringLoop, if_neg hb]
        simp only [hd]
        rw [if_neg (by omega), if_neg (by omega)]
        rfl
      · show unquoteLoop (u + 1) (b :: s1 :: s2 :: s3 :: more) = _
        rw [unquoteLoop_multibyte b _ u hb, decodeRune_four b s1 s2 s3 _ hw h2 h3, hE]
        rfl

theorem take_drop_of_split (l chunk rest : GoString) (n : Nat) (h : l = chunk ++ rest)
    (hn : chunk.length = n) : l.take n = chunk ∧ l.drop n = rest := by
  subst h
  subst hn
  simp

/-- The decoder reads back what the encoder wrote, every invalid byte
having become U+FFFD. -/
theorem unquoteLoop_appendStringLoop (n : Nat) :
    ∀ (s : GoString), s.length ≤ n → ∀ (fuel cfuel ufuel : Nat) (rest : GoString),
      s.length ≤ fuel → s.length ≤ cfuel →
      (appendStringLoop fuel s).length + 1 ≤ ufuel →
      unquoteLoop ufuel (appendStringLoop fuel s ++ 0x22 :: rest)
        = some (coerceLoop cfuel s, rest) := by
  induction n with
  | zero =>
    intro s hs fuel cfuel ufuel rest _ _ hu
    have : s = [] := List.length_eq_zero.1 (by omega)
    subst this
    obtain ⟨u, rfl⟩ : ∃ u, ufuel = u + 1 := ⟨ufuel - 1, by omega⟩
    cases fuel <;> cases cfuel <;> simp [appendStringLoop, unquoteLoop, coerceLoop]
  | succ n ih =>
    intro s hs fuel cfuel ufuel rest hf hc hu
    obtain ⟨u, rfl⟩ : ∃ u, ufuel = u + 1 := ⟨ufuel - 1, by omega⟩
    rcases s with _ | ⟨b, tl⟩
    · cases fuel <;> cases cfuel <;> simp [appendStringLoop, unquoteLoop, coerceLoop]
    · obtain ⟨f, rfl⟩ : ∃ f, fuel = f + 1 := ⟨fuel - 1, by simp at hf; omega⟩
      obtain ⟨c, rfl⟩ : ∃ c, cfuel = c + 1 := ⟨cfuel - 1, by simp at hc; omega⟩
      simp only [List.length_cons] at hs hf hc
      rcases step_cases b tl with ⟨he1, he2, hb⟩ | ⟨hok, chunk, rest2, hsplit, hlen, hne, hstep⟩
      · have henc : appendStringLoop (f + 1) (b :: tl) =
            ascii "\\ufffd" ++ appendStringLoop f tl := by
          rw [appendStringLoop, if_neg hb]
          simp only [he1, he2, and_self, if_true]
        have hco : coerceLoop (c + 1) (b :: tl) = [0xEF, 0xBF, 0xBD] ++ coerceLoop c tl := by
          rw [coerceLoop]
          simp only [he1, he2, and_self, if_true]
        rw [henc] at hu ⊢
        rw [List.length_append] at hu
        have hsix : (ascii "\\ufffd").length = 6 := by decide
        rw [List.append_assoc, unquoteLoop_replacement, hco,
          ih tl (by omega) f c u rest (by omega) (by omega) (by omega)]
        rfl
      · obtain ⟨out, henc, hout, hdec⟩ := hstep f u (appendStringLoop f rest2 ++ 0x22 :: rest)
        have htd := take_drop_of_split (b :: tl) chunk rest2 _ hsplit hlen
        have hco : coerceLoop (c + 1) (b :: tl) = chunk ++ coerceLoop c rest2 := by
          rw [coerceLoop, if_neg hok, htd.1, htd.2]
        have hlen2 : (b :: tl).length = chunk.length + rest2.length := by
          rw [hsplit, List.length_append]
        have hcl : 1 ≤ chunk.length := List.length_pos.2 hne
        have hol : 1 ≤ out.length := List.length_pos.2 hout
        simp only [List.length_cons] at hlen2
        rw [henc] at hu ⊢
        rw [List.length_append] at hu
        rw [List.append_assoc, hdec, hco,
          ih rest2 (by omega) f c u rest (by omega) (by omega) (by omega)]
        rfl

/-- The coercion leaves valid UTF-8 alone and makes every other text
longer. -/
theorem coerceLoop_valid (n : Nat) :
    ∀ (s : GoString), s.length ≤ n → ∀ (cfuel vfuel : Nat),
      s.length ≤ cfuel → s.length ≤ vfuel →
      s.length ≤ (coerceLoop cfuel s).length ∧
      (validStringLoop vfuel s = true → coerceLoop cfuel s = s) ∧
      (validStringLoop vfuel s = false → s.length < (coerceLoop cfuel s).length) := by
  induction n with
  | zero =>
    intro s hs cfuel vfuel _ _
    have : s = [] := List.length_eq_zero.1 (by omega)
    subst this
    cases cfuel <;> cases vfuel <;> simp [coerceLoop, validStringLoop]
  | succ n ih =>
    intro s hs cfuel vfuel hc hv
    rcases s with _ | ⟨b, tl⟩
    · cases cfuel <;> cases vfuel <;> simp [coerceLoop, validStringLoop]
    · obtain ⟨c, rfl⟩ : ∃ c, cfuel = c + 1 := ⟨cfuel - 1, by simp at hc; omega⟩
      obtain ⟨v, rfl⟩ : ∃ v, vfuel = v + 1 := ⟨vfuel - 1, by simp at hv; omega⟩
      simp only [List.length_cons] at hs hc hv
      rcases step_cases b tl with ⟨he1, he2, hb⟩ | ⟨hok, chunk, rest2, hsplit, hlen, hne, -⟩
      · have hco : coerceLoop (c + 1) (b :: tl) = [0xEF, 0xBF, 0xBD] ++ coerceLoop c tl := by
          rw [coerceLoop]
          simp only [he1, he2, and_self, if_true]
        have hva : validStringLoop (v + 1) (b :: tl) = false := by
          rw [validStringLoop]
          simp only [he1, he2, and_self, if_true]
        have h := (ih tl (by omega) c v (by omega) (by omega)).1
        rw [hco, hva]
        simp only [List.length_append, List.length_cons, List.length_nil]
        refine ⟨by omega, by simp, fun _ => by omega⟩
      · have htd := take_drop_of_split (b :: tl) chunk rest2 _ hsplit hlen
        have hco : coerceLoop (c + 1) (b :: tl) = chunk ++ coerceLoop c rest2 := by
          rw [coerceLoop, if_neg hok, htd.1, htd.2]
        have hva : validStringLoop (v + 1) (b :: tl) = validStringLoop v rest2 := by
          rw [validStringLoop]
          simp only [hok, if_false, htd.2]
        have hlen2 : (b :: tl).length = chunk.length + rest2.length := by
          rw [hsplit, List.length_append]
        have hcl : 1 ≤ chunk.length := List.length_pos.2 hne
        simp only [List.length_cons] at hlen2
        have h := ih rest2 (by omega) c v (by omega) (by omega)
        rw [hco, hva, hsplit]
        simp only [List.length_append]
        refine ⟨by omega, fun hv => by rw [h.2.1 hv], fun hv => ?_⟩
        have := h.2.2 hv
        omega

theorem coerced_eq_iff (t : GoString) : coerced t = t ↔ ValidString t = true := by
  have h := coerceLoop_valid t.length t (Nat.le_refl _) t.length t.length (Nat.le_refl _)
    (Nat.le_refl _)
  unfold coerced ValidString
  constructor
  · intro he
    cases hv : validStringLoop t.length t with
    | true => rfl
    | false =>
      have := h.2.2 hv
      rw [he] at this
      omega
  · exact h.2.1

theorem unquote_appendStringLoop (t rest : GoString) :
    unquote (appendStringLoop t.length t ++ 0x22 :: rest) = some (coerced t, rest) := by
  unfold unquote coerced
  apply unquoteLoop_appendStringLoop t.length t (Nat.le_refl _) t.length t.length _ rest
    (Nat.le_refl _) (Nat.le_refl _)
  simp

theorem unquote_key (rest : GoString) :
    unquote (ascii "message" ++ 0x22 :: rest) = some (ascii "message", rest) := by
  have h := unquote_appendStringLoop (ascii "message") rest
  have e : appendStringLoop (ascii "message").length (ascii "message") = ascii "message" := by
    decide
  have e2 : coerced (ascii "message") = ascii "message" := by decide
  rw [e, e2] at h
  exact h

theorem unmarshal_marshal (t : GoString) :
    Unmarshal (ascii "\x7b\"message\":" ++ appendString t ++ ascii "\x7d") = some ⟨coerced t⟩ := by
  have e : ascii "\x7b\"message\":" ++ appendString t ++ ascii "\x7d" =
      0x7B :: 0x22 :: (ascii "message" ++ 0x22 :: 0x3A :: 0x22 ::
        (appendStringLoop t.length t ++ 0x22 :: [0x7D])) := by
    simp [ascii, appendString]
  rw [e]
  unfold Unmarshal
  simp only [skipSpace]
  simp [unquote_key, unquote_appendStringLoop t _, skipSpace]

/-- C7, as amended: for every message text, `Encode` returns no error and
decoding the JSON text it returns yields the text with every byte that is not
part of a valid UTF-8 encoding replaced by U+FFFD; the decoded message equals
the text exactly when the text is valid UTF-8 (white space, non-ASCII
characters, quotes and backslashes included). -/
theorem encode_decode_roundtrip (t : GoString) :
    (∃ s, RoomMessage.Encode ⟨t⟩ = .ok s ∧ Unmarshal s = some ⟨coerced t⟩) ∧
    (coerced t = t ↔ ValidString t = true) ∧
    (ValidString t = true →
      ∃ s, RoomMessage.Encode ⟨t⟩ = .ok s ∧ Unmarshal s = some ⟨t⟩) := by
  have h1 : ∃ s, RoomMessage.Encode ⟨t⟩ = .ok s ∧ Unmarshal s = some ⟨coerced t⟩ :=
    ⟨ascii "\x7b\"message\":" ++ appendString t ++ ascii "\x7d", rfl, unmarshal_marshal t⟩
  refine ⟨h1, coerced_eq_iff t, ?_⟩
  intro ht
  obtain ⟨s, hs, hu⟩ := h1
  rw [(coerced_eq_iff t).2 ht] at hu
  exact ⟨s, hs, hu⟩

/-- A witness for C7: a text with a space, a tab, a quote, a backslash, the
two bytes of U+00E9 and the four bytes of U+1F600 comes back as it was. -/
theorem encode_decode_roundtrip_witness :
    ∃ s, RoomMessage.Encode ⟨[0x61, 0x20, 0x09, 0x22, 0x5C, 0xC3, 0xA9, 0xF0, 0x9F, 0x98, 0x80]⟩
        = .ok s ∧
      Unmarshal s = some ⟨[0x61, 0x20, 0x09, 0x22, 0x5C, 0xC3, 0xA9, 0xF0, 0x9F, 0x98, 0x80]⟩ :=
  (encode_decode_roundtrip _).2.2 (by decide)

/-- C7 as stated fails: the Go string of the single byte `0xFF` is encoded
without error, and decoding the result yields the three bytes of U+FFFD. -/
theorem encode_decode_invalid_byte :
    ∃ s, RoomMessage.Encode ⟨[0xFF]⟩ = .ok s ∧
      Unmarshal s = some ⟨[0xEF, 0xBF, 0xBD]⟩ ∧
      (⟨[0xEF, 0xBF, 0xBD]⟩ : RoomMessage) ≠ ⟨[0xFF]⟩ :=
  ⟨ascii "\x7b\"message\":\"\\ufffd\"\x7d", by decide, by decide, by decide⟩

/-! ### Strings -/

theorem indexByte_eq_none (c : Nat) (s : GoString) (h : c ∉ s) : indexByte c s = none := by
  induction s with
  | nil => rfl
  | cons x rest ih =>
    simp only [List.mem_cons, not_or] at h
    rw [indexByte, if_neg (fun e => h.1 e.symm), ih h.2]

theorem indexByte_append (c : Nat) (pre post : GoString) (h : c ∉ pre) :
    indexByte c (pre ++ c :: post) = some pre.length := by
  induction pre with
  | nil => simp [indexByte]
  | cons x rest ih =>
    simp only [List.mem_cons, not_or] at h
    rw [List.cons_append, indexByte, if_neg (fun e => h.1 e.symm), ih h.2]
    rfl

theorem lastIndexByte_eq_none (c : Nat) (s : GoString) (h : c ∉ s) :
    lastIndexByte c s = none := by
  induction s with
  | nil => rfl
  | cons x rest ih =>
    simp only [List.mem_cons, not_or] at h
    rw [lastIndexByte, ih h.2]
    simp only
    rw [if_neg (fun e => h.1 e.symm)]

theorem cutByte_of_not_mem (c : Nat) (s : GoString) (h : c ∉ s) : cutByte c s = (s, []) := by
  unfold cutByte
  rw [indexByte_eq_none c s h]

theorem unescapeCheck_eq_none (mode : Encoding) (s : GoString) (h : 0x25 ∉ s)
    (hhost : mode = .encodeHost ∨ mode = .encodeZone →
      ∀ c ∈ s, shouldEscape c .encodeHost = false) :
    unescapeCheck mode s = none := by
  induction s with
  | nil => rfl
  | cons x rest ih =>
    simp only [List.mem_cons, not_or] at h
    have ih2 := ih h.2 (fun hm c hc => hhost hm c (by simp [hc]))
    rw [unescapeCheck.eq_def]
    simp only [if_neg (fun e => h.1 e.symm : ¬ x = 0x25)]
    by_cases hp : x = 0x2B
    · rw [if_pos hp, ih2]
    · rw [if_neg hp]
      by_cases hm : mode = .encodeHost ∨ mode = .encodeZone
      · have := hhost hm x (by simp)
        simp [this, ih2]
      · simp [hm, ih2]

theorem unescapeBytes_eq (mode : Encoding) (s : GoString) (h : 0x25 ∉ s)
    (hm : mode ≠ .encodeQueryComponent) : unescapeBytes mode s = s := by
  induction s with
  | nil => rfl
  | cons x rest ih =>
    simp only [List.mem_cons, not_or] at h
    rw [unescapeBytes.eq_def]
    simp only [if_neg (fun e => h.1 e.symm : ¬ x = 0x25), ih h.2]
    by_cases hp : x = 0x2B
    · simp [hp, hm]
    · simp [hp]

theorem unescape_eq (mode : Encoding) (s : GoString) (h : 0x25 ∉ s)
    (hm : mode ≠ .encodeQueryComponent)
    (hhost : mode = .encodeHost ∨ mode = .encodeZone →
      ∀ c ∈ s, shouldEscape c .encodeHost = false) :
    unescape s mode = .ok s := by
  unfold unescape
  rw [unescapeCheck_eq_none mode s h hhost, unescapeBytes_eq mode s h hm]

theorem escape_eq (mode : Encoding) (s : GoString)
    (h : ∀ c ∈ s, shouldEscape c mode = false) (hm : mode ≠ .encodeQueryComponent) :
    escape s mode = s := by
  unfold escape
  induction s with
  | nil => rfl
  | cons x rest ih =>
    have hx := h x (by simp)
    have ih2 := ih (fun c hc => h c (by simp [hc]))
    simp only [List.flatMap_cons, ih2]
    simp [hm, hx]

theorem lastIndexByte_append (c : Nat) (pre post : GoString) (h : c ∉ post) :
    lastIndexByte c (pre ++ c :: post) = some pre.length := by
  induction pre with
  | nil =>
    rw [List.nil_append, lastIndexByte, lastIndexByte_eq_none c post h]
    simp
  | cons x rest ih =>
    rw [List.cons_append, lastIndexByte, ih]
    rfl

/-! ### Bytes that need no escaping -/

theorem isAlnum_iff (c : Nat) :
    isAlnum c = true ↔ (0x61 ≤ c ∧ c ≤ 0x7A) ∨ (0x41 ≤ c ∧ c ≤ 0x5A) ∨ (0x30 ≤ c ∧ c ≤ 0x39) := by
  simp [isAlnum]

theorem shouldEscape_alnum (c : Nat) (mode : Encoding) (h : isAlnum c = true) :
    shouldEscape c mode = false := by
  unfold shouldEscape
  rw [if_pos h]

/-- What the proofs use of a byte of the authority: a byte of the host, a
digit or the colon of the port. -/
theorem authority_facts (c : Nat) (h : hostSafe c = true ∨ isDigit c = true ∨ c = 0x3A) :
    shouldEscape c .encodeHost = false ∧ 0x20 ≤ c ∧ c ≠ 0x7F ∧ c ≠ 0x25 ∧ c ≠ 0x40 ∧
      c ≠ 0x2F ∧ c ≠ 0x3F ∧ c ≠ 0x23 ∧ c ≠ 0x5B := by
  rcases h with h | h | h
  · simp only [hostSafe, Bool.decide_or, Bool.or_eq_true, decide_eq_true_eq] at h
    rcases h with h | h
    · refine ⟨shouldEscape_alnum c _ h, ?_⟩
      rw [isAlnum_iff] at h
      omega
    · have hc : c ∈ [0x2D, 0x5F, 0x2E, 0x7E, 0x21, 0x24, 0x26, 0x27, 0x28, 0x29, 0x2A, 0x2B,
          0x2C, 0x3B, 0x3D] := h
      simp only [List.mem_cons, List.mem_singleton, List.not_mem_nil, or_false] at hc
      rcases hc with h | h | h | h | h | h | h | h | h | h | h | h | h | h | h <;>
        subst h <;> decide
  · simp only [isDigit, Bool.decide_and, Bool.and_eq_true, decide_eq_true_eq] at h
    have ha : isAlnum c = true := by
      rw [isAlnum_iff]
      omega
    refine ⟨shouldEscape_alnum c _ ha, ?_⟩
    omega
  · subst h
    decide

theorem hostSafe_ne_colon (c : Nat) (h : hostSafe c = true) : c ≠ 0x3A := by
  simp only [hostSafe, Bool.decide_or, Bool.or_eq_true, decide_eq_true_eq] at h
  rcases h with h | h
  · rw [isAlnum_iff] at h
    omega
  · have hc : c ∈ [0x2D, 0x5F, 0x2E, 0x7E, 0x21, 0x24, 0x26, 0x27, 0x28, 0x29, 0x2A, 0x2B,
        0x2C, 0x3B, 0x3D] := h
    simp only [List.mem_cons, List.mem_singleton, List.not_mem_nil, or_false] at hc
    omega

theorem pathSafe_facts (c : Nat) (h : pathSafe c = true) :
    (c ∈ ascii "!$&'()*+,;=:@[]%" ∨ shouldEscape c .encodePath = false) ∧
      0x20 ≤ c ∧ c ≠ 0x7F ∧ c ≠ 0x25 ∧ c ≠ 0x3F ∧ c ≠ 0x23 := by
  simp only [pathSafe, Bool.decide_or, Bool.or_eq_true, decide_eq_true_eq] at h
  rcases h with h | h
  · refine ⟨Or.inr (shouldEscape_alnum c _ h), ?_⟩
    rw [isAlnum_iff] at h
    omega
  · have hc : c ∈ [0x2D, 0x5F, 0x2E, 0x7E, 0x21, 0x24, 0x26, 0x27, 0x28, 0x29, 0x2A, 0x2B,
        0x2C, 0x3B, 0x3D, 0x2F, 0x3A, 0x40, 0x5B, 0x5D] := h
    simp only [List.mem_cons, List.mem_singleton, List.not_mem_nil, or_false] at hc
    rcases hc with h | h | h | h | h | h | h | h | h | h | h | h | h | h | h | h | h | h |
      h | h <;> subst h <;> decide

/-! ### The scheme -/

theorem getSchemeLoop_rest (raw rest more : GoString) (i : Nat) (hi : i ≠ 0)
    (hr : ∀ d ∈ rest, (0x61 ≤ d ∧ d ≤ 0x7A) ∨ (0x30 ≤ d ∧ d ≤ 0x39) ∨ d = 0x2B ∨ d = 0x2D ∨ d = 0x2E) :
    getSchemeLoop raw i (rest ++ 0x3A :: more) = .ok (raw.take (i + rest.length), more) := by
  induction rest generalizing i with
  | nil => simp [getSchemeLoop, hi]
  | cons c rest ih =>
    have hc := hr c (by simp)
    have ih2 := ih (i + 1) (by omega) (fun d hd => hr d (by simp [hd]))
    rw [List.cons_append, getSchemeLoop]
    by_cases hl : (0x61 ≤ c ∧ c ≤ 0x7A) ∨ (0x41 ≤ c ∧ c ≤ 0x5A)
    · rw [if_pos hl, ih2]
      simp only [List.length_cons]
      congr 3
      omega
    · rw [if_neg hl, if_pos (by omega), if_neg hi, ih2]
      simp only [List.length_cons]
      congr 3
      omega

theorem lowerScheme_cases (scheme : GoString) (h : lowerScheme scheme = true) :
    ∃ c rest, scheme = c :: rest ∧ (0x61 ≤ c ∧ c ≤ 0x7A) ∧
      ∀ d ∈ rest, (0x61 ≤ d ∧ d ≤ 0x7A) ∨ (0x30 ≤ d ∧ d ≤ 0x39) ∨ d = 0x2B ∨ d = 0x2D ∨ d = 0x2E := by
  rcases scheme with _ | ⟨c, rest⟩
  · simp [lowerScheme] at h
  · simp only [lowerScheme, Bool.decide_and, Bool.and_eq_true, decide_eq_true_eq,
      List.all_eq_true] at h
    refine ⟨c, rest, rfl, ?_, ?_⟩
    · have := h.1
      simp only [isLower, Bool.decide_and, Bool.and_eq_true, decide_eq_true_eq] at this
      exact this
    · intro d hd
      have := h.2 d hd
      simp only [isLower, isDigit, Bool.decide_and, Bool.decide_or, Bool.or_eq_true,
        Bool.and_eq_true, decide_eq_true_eq] at this
      exact this

theorem scheme_byte_facts (d : Nat)
    (h : (0x61 ≤ d ∧ d ≤ 0x7A) ∨ (0x30 ≤ d ∧ d ≤ 0x39) ∨ d = 0x2B ∨ d = 0x2D ∨ d = 0x2E) :
    0x20 ≤ d ∧ d ≠ 0x7F ∧ d ≠ 0x23 ∧ ¬ (0x41 ≤ d ∧ d ≤ 0x5A) := by
  omega

theorem getScheme_lower (scheme more : GoString) (h : lowerScheme scheme = true) :
    getScheme (scheme ++ 0x3A :: more) = .ok (scheme, more) := by
  obtain ⟨c, rest, rfl, hc, hr⟩ := lowerScheme_cases scheme h
  unfold getScheme
  rw [List.cons_append, getSchemeLoop, if_pos (Or.inl hc),
    getSchemeLoop_rest _ rest more 1 (by omega) hr]
  have : 1 + rest.length = (c :: rest).length := by
    simp only [List.length_cons]
    omega
  rw [this, ← List.cons_append, List.take_left]

theorem toLower_lower (scheme : GoString) (h : lowerScheme scheme = true) :
    toLower scheme = scheme := by
  obtain ⟨c, rest, rfl, hc, hr⟩ := lowerScheme_cases scheme h
  have hall : ∀ d ∈ c :: rest, ¬ (0x41 ≤ d ∧ d ≤ 0x5A) := by
    intro d hd
    rcases List.mem_cons.1 hd with e | e
    · subst e
      omega
    · exact (scheme_byte_facts d (hr d e)).2.2.2
  unfold toLower
  generalize c :: rest = l at hall
  induction l with
  | nil => rfl
  | cons x l ih =>
    rw [List.map_cons, ih (fun d hd => hall d (by simp [hd])), if_neg (hall x (by simp))]

/-! ### The authority -/

theorem plainPort_cases (port : GoString) (h : plainPort port = true) :
    port = [] ∨ ∃ digits, port = 0x3A :: digits ∧ digits ≠ [] ∧
      ∀ d ∈ digits, isDigit d = true := by
  rcases port with _ | ⟨c, digits⟩
  · left
    rfl
  · right
    simp only [plainPort, Bool.decide_and, Bool.and_eq_true, decide_eq_true_eq,
      List.all_eq_true, ne_eq, decide_not, Bool.not_eq_true', decide_eq_false_iff_not] at h
    exact ⟨digits, by rw [h.1], h.2.1, h.2.2⟩

theorem isDigit_bounds (d : Nat) (h : isDigit d = true) : 0x30 ≤ d ∧ d ≤ 0x39 := by
  simpa [isDigit] using h

theorem authority_bytes (host port : GoString) (hh : ∀ c ∈ host, hostSafe c = true)
    (hp : plainPort port = true) :
    ∀ c ∈ host ++ port, hostSafe c = true ∨ isDigit c = true ∨ c = 0x3A := by
  intro c hc
  rcases List.mem_append.1 hc with h | h
  · exact Or.inl (hh c h)
  · rcases plainPort_cases port hp with rfl | ⟨digits, rfl, -, hd⟩
    · simp at h
    · rcases List.mem_cons.1 h with e | e
      · exact Or.inr (Or.inr e)
      · exact Or.inr (Or.inl (hd c e))

theorem parseHost_plain (host port : GoString) (hh : ∀ c ∈ host, hostSafe c = true)
    (hp : plainPort port = true) : parseHost (host ++ port) = .ok (host ++ port) := by
  have hb := authority_bytes host port hh hp
  have h25 : 0x25 ∉ host ++ port := fun hm => (authority_facts _ (hb _ hm)).2.2.2.1 rfl
  have hplain : unescape (host ++ port) .encodeHost = .ok (host ++ port) :=
    unescape_eq _ _ h25 (by decide) (fun _ c hc => (authority_facts c (hb c hc)).1)
  have hhead : ∀ tl, host ++ port ≠ 0x5B :: tl := by
    intro tl he
    have hm : 0x5B ∈ host ++ port := by
      rw [he]
      simp
    exact (authority_facts _ (hb _ hm)).2.2.2.2.2.2.2.2 rfl
  have h3A : 0x3A ∉ host := fun hm => hostSafe_ne_colon _ (hh _ hm) rfl
  unfold parseHost
  rcases plainPort_cases port hp with rfl | ⟨digits, rfl, hne, hd⟩
  · rw [List.append_nil] at hplain hhead ⊢
    simp only [lastIndexByte_eq_none _ _ h3A, hplain]
  · have hdig : 0x3A ∉ digits := by
      intro hm
      have := isDigit_bounds _ (hd _ hm)
      omega
    have hvalid : validOptionalPort (0x3A :: digits) = true := by
      simp only [validOptionalPort, Bool.decide_and, Bool.and_eq_true, decide_eq_true_eq,
        List.all_eq_true, true_and]
      intro d hdm
      exact isDigit_bounds d (hd d hdm)
    simp only [lastIndexByte_append _ host digits hdig, hplain, List.drop_left, hvalid,
      not_true_eq_false, if_false]

theorem parseAuthority_plain (host port : GoString) (hh : ∀ c ∈ host, hostSafe c = true)
    (hp : plainPort port = true) :
    parseAuthority (host ++ port) = .ok (none, host ++ port) := by
  have hb := authority_bytes host port hh hp
  have h40 : 0x40 ∉ host ++ port := fun hm => (authority_facts _ (hb _ hm)).2.2.2.2.1 rfl
  unfold parseAuthority
  rw [lastIndexByte_eq_none _ _ h40]
  simp only [parseHost_plain host port hh hp]

theorem removeEmptyPort_plain (host port : GoString) (hh : ∀ c ∈ host, hostSafe c = true)
    (hp : plainPort port = true) : removeEmptyPort (host ++ port) = host ++ port := by
  have hlast : (host ++ port).getLast? ≠ some 0x3A := by
    intro h
    rcases plainPort_cases port hp with rfl | ⟨digits, rfl, hne, hd⟩
    · rw [List.append_nil] at h
      exact hostSafe_ne_colon _ (hh _ (List.mem_of_getLast?_eq_some h)) rfl
    · have e : host ++ 0x3A :: digits = (host ++ [0x3A]) ++ digits := by simp
      rw [e, List.getLast?_append_of_ne_nil _ hne] at h
      have := isDigit_bounds _ (hd _ (List.mem_of_getLast?_eq_some h))
      omega
  unfold removeEmptyPort
  rw [if_neg (fun h => hlast h.2)]

/-! ### The path -/

theorem setPath_plain (u : URL) (path : GoString) (hp : ∀ c ∈ path, pathSafe c = true) :
    u.setPath path = .ok { u with
      Path := path, RawPath := if path = escape path .encodePath then [] else path } := by
  have h25 : 0x25 ∉ path := fun hm => (pathSafe_facts _ (hp _ hm)).2.2.2.1 rfl
  have hun : unescape path .encodePath = .ok path :=
    unescape_eq _ path h25 (by decide) (fun hm => by rcases hm with hm | hm <;> cases hm)
  unfold URL.setPath
  rw [hun]
  simp only
  split <;> rfl

theorem EscapedPath_plain (u : URL) (path : GoString) (hp : ∀ c ∈ path, pathSafe c = true)
    (hstar : path ≠ ascii "*") :
    URL.EscapedPath { u with
      Path := path, RawPath := if path = escape path .encodePath then [] else path } = path := by
  have h25 : 0x25 ∉ path := fun hm => (pathSafe_facts _ (hp _ hm)).2.2.2.1 rfl
  have hun : unescape path .encodePath = .ok path :=
    unescape_eq _ path h25 (by decide) (fun hm => by rcases hm with hm | hm <;> cases hm)
  have hval : validEncoded path .encodePath = true := by
    unfold validEncoded
    rw [List.all_eq_true]
    intro c hc
    rcases (pathSafe_facts c (hp c hc)).1 with h | h
    · simp [h]
    · simp [h]
  unfold URL.EscapedPath
  by_cases he : path = escape path .encodePath
  · simp only [he.symm, if_true, hstar, if_false]
    simp
  · have hne : path ≠ [] := by
      intro h
      apply he
      rw [h]
      rfl
    simp only [he, if_false, hne, ne_eq, not_false_eq_true, hval, hun, and_self, if_true]

/-! ### A URL that is written back as it was read -/

/-- The URL `url.Parse` returns for a scheme, an authority and a path of
bytes that need no escaping. -/
theorem Parse_plain (scheme host port path : GoString) (hs : lowerScheme scheme = true)
    (hh : ∀ c ∈ host, hostSafe c = true) (hport : plainPort port = true)
    (hp : ∀ c ∈ path, pathSafe c = true) :
    Parse (scheme ++ ascii "://" ++ host ++ port ++ (0x2F :: path)) =
      .ok { URL.zero with
        Scheme := scheme, Host := host ++ port, Path := 0x2F :: path,
        RawPath := if (0x2F :: path) = escape (0x2F :: path) .encodePath then []
          else 0x2F :: path } := by
  have hb := authority_bytes host port hh hport
  obtain ⟨c0, srest, hsc, hc0, hsr⟩ := lowerScheme_cases scheme hs
  have hsne : scheme ≠ [] := by
    rw [hsc]
    simp
  have hp2 : ∀ c ∈ 0x2F :: path, pathSafe c = true := by
    intro c hc
    rcases List.mem_cons.1 hc with h | h
    · subst h
      decide
    · exact hp c h
  have hrest : ∀ c ∈ 0x2F :: 0x2F :: ((host ++ port) ++ 0x2F :: path),
      0x20 ≤ c ∧ c ≠ 0x7F ∧ c ≠ 0x23 ∧ c ≠ 0x3F := by
    intro c hc
    simp only [List.mem_cons, List.mem_append] at hc
    rcases hc with h | h | h | h | h
    · subst h; decide
    · subst h; decide
    · have := authority_facts c (hb c (List.mem_append.2 h))
      exact ⟨this.2.1, this.2.2.1, this.2.2.2.2.2.2.2.1, this.2.2.2.2.2.2.1⟩
    · subst h; decide
    · have := pathSafe_facts c (hp c h)
      exact ⟨this.2.1, this.2.2.1, this.2.2.2.2.2, this.2.2.2.2.1⟩
  have e : scheme ++ ascii "://" ++ host ++ port ++ (0x2F :: path) =
      scheme ++ 0x3A :: 0x2F :: 0x2F :: ((host ++ port) ++ 0x2F :: path) := by
    simp [ascii]
  rw [e]
  have hscheme : ∀ c ∈ scheme, 0x20 ≤ c ∧ c ≠ 0x7F ∧ c ≠ 0x23 := by
    intro c hc
    rw [hsc] at hc
    rcases List.mem_cons.1 hc with h | h
    · subst h
      omega
    · have := scheme_byte_facts c (hsr c h)
      exact ⟨this.1, this.2.1, this.2.2.1⟩
  have hall : ∀ c ∈ scheme ++ 0x3A :: 0x2F :: 0x2F :: ((host ++ port) ++ 0x2F :: path),
      0x20 ≤ c ∧ c ≠ 0x7F ∧ c ≠ 0x23 := by
    intro c hc
    rcases List.mem_append.1 hc with h | h
    · exact hscheme c h
    · rcases List.mem_cons.1 h with h | h
      · subst h; decide
      · exact ⟨(hrest c h).1, (hrest c h).2.1, (hrest c h).2.2.1⟩
  have h23 : 0x23 ∉ scheme ++ 0x3A :: 0x2F :: 0x2F :: ((host ++ port) ++ 0x2F :: path) :=
    fun hm => (hall _ hm).2.2 rfl
  have hctl : stringContainsCTLByte
      (scheme ++ 0x3A :: 0x2F :: 0x2F :: ((host ++ port) ++ 0x2F :: path)) = false := by
    unfold stringContainsCTLByte
    rw [List.any_eq_false]
    intro c hc
    have := hall c hc
    simp only [decide_eq_true_eq, not_or, not_lt]
    exact ⟨this.1, this.2.1⟩
  have hstar : scheme ++ 0x3A :: 0x2F :: 0x2F :: ((host ++ port) ++ 0x2F :: path)
      ≠ ascii "*" := by
    intro h
    have := congrArg List.length h
    simp [ascii] at this
    omega
  have hsch := getScheme_lower scheme (0x2F :: 0x2F :: ((host ++ port) ++ 0x2F :: path)) hs
  have h3F : 0x3F ∉ 0x2F :: 0x2F :: ((host ++ port) ++ 0x2F :: path) :=
    fun hm => (hrest _ hm).2.2.2 rfl
  have hlast : (0x2F :: 0x2F :: ((host ++ port) ++ 0x2F :: path)).getLast? ≠ some 0x3F := by
    intro h
    exact h3F (List.mem_of_getLast?_eq_some h)
  have h2F : 0x2F ∉ host ++ port :=
    fun hm => (authority_facts _ (hb _ hm)).2.2.2.2.2.1 rfl
  have hidx := indexByte_append 0x2F (host ++ port) path h2F
  have hpre : (ascii "//").isPrefixOf (0x2F :: 0x2F :: ((host ++ port) ++ 0x2F :: path))
      = true := by
    simp [ascii, List.isPrefixOf]
  unfold Parse
  rw [cutByte_of_not_mem _ _ h23]
  simp only [if_true]
  unfold parse
  rw [hctl]
  simp only [Bool.false_eq_true, if_false, hstar, hsch, toLower_lower scheme hs]
  simp only [hlast, false_and, decide_False, Bool.false_eq_true, if_false,
    cutByte_of_not_mem _ _ h3F]
  simp only [List.head?_cons, ne_eq, not_true_eq_false, false_and, if_false, hsne,
    not_false_eq_true, true_or, true_and]
  simp only [hpre, if_true, List.drop_succ_cons, List.drop_zero, hidx, List.take_left,
    List.drop_left, parseAuthority_plain host port hh hport]
  rw [setPath_plain _ _ hp2]
  rfl

theorem String_plain (scheme host port path : GoString) (hs : lowerScheme scheme = true)
    (hh : ∀ c ∈ host, hostSafe c = true) (hport : plainPort port = true)
    (hp : ∀ c ∈ path, pathSafe c = true) :
    URL.String { URL.zero with
        Scheme := scheme, Host := host ++ port, Path := 0x2F :: path,
        RawPath := if (0x2F :: path) = escape (0x2F :: path) .encodePath then []
          else 0x2F :: path } =
      scheme ++ ascii "://" ++ host ++ port ++ (0x2F :: path) := by
  have hb := authority_bytes host port hh hport
  obtain ⟨c0, srest, hsc, -, -⟩ := lowerScheme_cases scheme hs
  have hsne : scheme ≠ [] := by
    rw [hsc]
    simp
  have hp2 : ∀ c ∈ 0x2F :: path, pathSafe c = true := by
    intro c hc
    rcases List.mem_cons.1 hc with h | h
    · subst h
      decide
    · exact hp c h
  have heh : escape (host ++ port) .encodeHost = host ++ port :=
    escape_eq _ _ (fun c hc => (authority_facts c (hb c hc)).1) (by decide)
  have hstar : (0x2F :: path) ≠ ascii "*" := by
    intro h
    have := congrArg List.head? h
    simp [ascii] at this
  have hpath := EscapedPath_plain
    { URL.zero with Scheme := scheme, Host := host ++ port } (0x2F :: path) hp2 hstar
  unfold URL.String
  simp only [hpath]
  simp [URL.zero, URL.authorityString, hsne, heh, ascii]
  split_ifs with h
  · rw [List.append_assoc]
  · simp only [Classical.not_imp, not_not] at h
    rw [h.1, h.2]
    rfl

/-! ### The request of `Post` -/

theorem request_eq (m : RoomMessage) (config : Config) (u : URL)
    (hu : Parse (config.HipchatURL ++ ascii "/v2/room/" ++ config.Room ++ ascii "/message")
      = .ok u) :
    m.request config =
      match Parse u.String with
      | .error _ => .error .panicked
      | .ok v => .ok ⟨ascii "POST", { v with Host := removeEmptyPort v.Host },
          [(ascii "Authorization", ascii "Bearer " ++ config.APIToken),
            (ascii "Content-Type", ascii "application/json")],
          ascii "\x7b\"message\":" ++ appendString m.Message ++ ascii "\x7d"⟩ := by
  have hkey : (ascii "Authorization" ≠ ascii "Content-Type") := by decide
  unfold RoomMessage.request RoomMessage.Encode Marshal NewRequest
  simp only [hu]
  cases Parse u.String with
  | error e => rfl
  | ok v => simp [headerSet, hkey]

/-- C2, as amended: every request `Post` issues is a POST whose target is
the URL `http.NewRequest` parses, with an empty port dropped, from the text
`net/url` writes back for the base, `/v2/room/`, the room and `/message` put
together (`url.Parse` followed by `String`), with the header `Authorization`
set to `Bearer ` and the token, `Content-Type` set to `application/json` and
the encoding of the message as body.  When the base is a scheme in lower case,
`://`, a host of letters, digits, marks and sub-delimiters, an optional port
of at least one digit and an optional path, and the room and that path hold
only bytes that need no percent-encoding in a path, such a request is issued
and its target, written as text, is the base, `/v2/room/`, the room and
`/message` as they are. -/
theorem request_shape (m : RoomMessage) (config : Config) :
    (∀ req, m.request config = .ok req →
      req.Method = ascii "POST" ∧
      (∃ u v, Parse (config.HipchatURL ++ ascii "/v2/room/" ++ config.Room ++ ascii "/message")
          = .ok u ∧ Parse u.String = .ok v ∧
          req.URL = { v with Host := removeEmptyPort v.Host }) ∧
      headerGet req.Header (ascii "Authorization") = ascii "Bearer " ++ config.APIToken ∧
      headerGet req.Header (ascii "Content-Type") = ascii "application/json" ∧
      m.Encode = .ok req.Body) ∧
    (∀ scheme host port pre, config.HipchatURL = scheme ++ ascii "://" ++ host ++ port ++ pre →
      lowerScheme scheme = true → (∀ c ∈ host, hostSafe c = true) → plainPort port = true →
      plainPrefix pre = true → (∀ c ∈ config.Room, pathSafe c = true) →
      ∃ req, m.request config = .ok req ∧
        req.target =
          config.HipchatURL ++ ascii "/v2/room/" ++ config.Room ++ ascii "/message") := by
  constructor
  · intro req hreq
    cases hu : Parse (config.HipchatURL ++ ascii "/v2/room/" ++ config.Room ++ ascii "/message")
      with
    | error e =>
      unfold RoomMessage.request RoomMessage.Encode Marshal at hreq
      simp only [hu] at hreq
      cases hreq
    | ok u =>
      rw [request_eq m config u hu] at hreq
      cases hp : Parse u.String with
      | error e =>
        rw [hp] at hreq
        cases hreq
      | ok v =>
        rw [hp] at hreq
        cases hreq
        refine ⟨rfl, ⟨u, v, rfl, hp, rfl⟩, ?_, ?_, rfl⟩
        · simp [headerGet]
        · have hkey : (ascii "Authorization" ≠ ascii "Content-Type") := by decide
          simp [headerGet, hkey]
  · intro scheme host port pre hb hs hh hport hpre hr
    have hfix : ∀ c ∈ ascii "v2/room/" ++ config.Room ++ ascii "/message",
        pathSafe c = true := by
      intro c hc
      rcases List.mem_append.1 hc with h | h
      · rcases List.mem_append.1 h with h | h
        · exact (by decide : ∀ d ∈ ascii "v2/room/", pathSafe d = true) c h
        · exact hr c h
      · exact (by decide : ∀ d ∈ ascii "/message", pathSafe d = true) c h
    obtain ⟨path, hpath, e⟩ : ∃ path, (∀ c ∈ path, pathSafe c = true) ∧
        config.HipchatURL ++ ascii "/v2/room/" ++ config.Room ++ ascii "/message" =
          scheme ++ ascii "://" ++ host ++ port ++ (0x2F :: path) := by
      rcases pre with _ | ⟨p0, prest⟩
      · refine ⟨ascii "v2/room/" ++ config.Room ++ ascii "/message", hfix, ?_⟩
        rw [hb]
        simp [ascii]
      · simp only [plainPrefix, Bool.decide_and, Bool.and_eq_true, decide_eq_true_eq,
          List.all_eq_true] at hpre
        refine ⟨prest ++ (0x2F :: (ascii "v2/room/" ++ config.Room ++ ascii "/message")),
          ?_, ?_⟩
        · intro c hc
          rcases List.mem_append.1 hc with h | h
          · exact hpre.2 c h
          · rcases List.mem_cons.1 h with h | h
            · subst h
              decide
            · exact hfix c h
        · rw [hb, hpre.1]
          simp [ascii]
    have hP := Parse_plain scheme host port path hs hh hport hpath
    have hS := String_plain scheme host port path hs hh hport hpath
    rw [← e] at hP hS
    have hreq := request_eq m config _ hP
    simp only [hS, hP] at hreq
    refine ⟨_, hreq, ?_⟩
    unfold Request.target
    simp only [removeEmptyPort_plain host port hh hport]
    exact hS

/-- A witness for C2: the delivery example of the specification, and a base
with a port and a path in front of a room with parentheses. -/
theorem request_shape_witness :
    (∃ req, RoomMessage.request ⟨ascii "hello world"⟩ sampleConfig = .ok req ∧
      req.Method = ascii "POST" ∧
      req.target = ascii "https://x.example.com/v2/room/devs/message" ∧
      headerGet req.Header (ascii "Authorization") = ascii "Bearer tok123" ∧
      headerGet req.Header (ascii "Content-Type") = ascii "application/json" ∧
      req.Body = ascii "\x7b\"message\":\"hello world\"\x7d") ∧
    (∃ req, RoomMessage.request ⟨ascii "hello world"⟩ portConfig = .ok req ∧
      req.target = ascii "http://chat.example.com:8080/hipchat/v2/room/Dev(1)/message") := by
  obtain ⟨req, hreq, ht⟩ := (request_shape ⟨ascii "hello world"⟩ sampleConfig).2
    (ascii "https") (ascii "x.example.com") [] [] (by decide) (by decide) (by decide)
    (by decide) (by decide) (by decide)
  obtain ⟨hm, -, ha, hc, hb⟩ := (request_shape ⟨ascii "hello world"⟩ sampleConfig).1 req hreq
  have hbody : RoomMessage.Encode ⟨ascii "hello world"⟩ =
      .ok (ascii "\x7b\"message\":\"hello world\"\x7d") := by decide
  rw [hbody] at hb
  exact ⟨⟨req, hreq, hm, ht, ha, hc, (Except.ok.inj hb).symm⟩,
    (request_shape ⟨ascii "hello world"⟩ portConfig).2 (ascii "http")
      (ascii "chat.example.com") (ascii ":8080") (ascii "/hipchat") (by decide) (by decide)
      (by decide) (by decide) (by decide) (by decide)⟩

/-- C2 as stated fails: for a room name with a space `Post` issues a
request whose target holds `%20` in place of the space, and for a base that
ends in the colon of an empty port it issues a request whose target has lost
that colon; neither is the base and the room put in as they are. -/
theorem request_escapes_room :
    (∃ req, RoomMessage.request ⟨ascii "hello world"⟩ spacedConfig = .ok req ∧
      req.target = ascii "https://x.example.com/v2/room/my%20room/message" ∧
      req.target ≠
        spacedConfig.HipchatURL ++ ascii "/v2/room/" ++ spacedConfig.Room ++ ascii "/message") ∧
    (∃ req, RoomMessage.request ⟨ascii "hello world"⟩ emptyPortConfig = .ok req ∧
      req.target = ascii "https://x.example.com/v2/room/devs/message" ∧
      req.target ≠
        emptyPortConfig.HipchatURL ++ ascii "/v2/room/" ++ emptyPortConfig.Room
          ++ ascii "/message") := by
  constructor
  · refine ⟨⟨ascii "POST", { URL.zero with
        Scheme := ascii "https", Host := ascii "x.example.com",
        Path := ascii "/v2/room/my room/message" },
      [(ascii "Authorization", ascii "Bearer tok123"),
        (ascii "Content-Type", ascii "application/json")],
      ascii "\x7b\"message\":\"hello world\"\x7d"⟩, by decide!, by decide!, by decide!⟩
  · refine ⟨⟨ascii "POST", { URL.zero with
        Scheme := ascii "https", Host := ascii "x.example.com",
        Path := ascii "/v2/room/devs/message" },
      [(ascii "Authorization", ascii "Bearer tok123"),
        (ascii "Content-Type", ascii "application/json")],
      ascii "\x7b\"message\":\"hello world\"\x7d"⟩, by decide!, by decide!, by decide!⟩

/-! ### Further properties of the run -/

/-- With message arguments `main` makes one call of `Post`, on the arguments
joined by single spaces, and ends with the status of that call; standard
input plays no part. -/
theorem main_with_arguments (w : World) (cfg0 : Config) (room : Option GoString)
    (args : List GoString) (stdin : Stdin) (net : Nat → Request → Except GoError Response)
    (hload : Config.zero.Load w = .ok cfg0) (hroom : (cfg0.bindFlags room).Room ≠ [])
    (hargs : args ≠ []) :
    main w (.accepted room args) stdin net =
      ⟨[(cfg0.bindFlags room, ⟨Join args (ascii " ")⟩)],
        (RoomMessage.Post ⟨Join args (ascii " ")⟩ (cfg0.bindFlags room) (net 0)).exitStatus⟩ ∧
    ∀ stdin2 : Stdin, main w (.accepted room args) stdin2 net =
      main w (.accepted room args) stdin net := by
  have hlen : args.length > 0 := List.length_pos.2 hargs
  constructor
  · rw [main_of_load w cfg0 room args stdin net hload, if_neg hroom, if_pos hlen]
  · intro stdin2
    rw [main_of_load w cfg0 room args stdin net hload,
      main_of_load w cfg0 room args stdin2 net hload, if_neg hroom, if_neg hroom,
      if_pos hlen, if_pos hlen]

/-- A sample run with two message arguments. -/
theorem main_with_arguments_witness :
    main sampleWorld (.accepted none [ascii "hello", ascii "world"])
        ⟨ascii "ignored", none⟩ created =
      ⟨[(sampleConfig, ⟨ascii "hello world"⟩)], 0⟩ := by
  rw [(main_with_arguments sampleWorld sampleConfig none [ascii "hello", ascii "world"]
    ⟨ascii "ignored", none⟩ created sample_load (by decide) (by decide)).1]
  decide!

theorem scanLoop_exit (cfg : Config) (net : Nat → Request → Except GoError Response)
    (err : Option GoError) (i : Nat) (lines : List GoString) :
    (scanLoop cfg net err i lines).exit = 0 ↔
      (∀ r ∈ outcomes cfg net i lines, r = .ok) ∧ err = none := by
  induction lines generalizing i with
  | nil => cases err <;> simp [scanLoop, outcomes]
  | cons line rest ih =>
    rw [scanLoop, outcomes]
    cases h : RoomMessage.Post ⟨line⟩ cfg (net i) with
    | ok => simp [ih]
    | failed e => simp [Result.exitStatus]
    | panicked => simp [Result.exitStatus]

/-- Without message arguments `main` ends with status 0 exactly when
every delivery succeeds, no line of standard input is 65536 bytes long or
longer, and reading standard input ends without an error. -/
theorem main_exit_zero_iff (w : World) (cfg0 : Config) (room : Option GoString)
    (stdin : Stdin) (net : Nat → Request → Except GoError Response)
    (hload : Config.zero.Load w = .ok cfg0) (hroom : (cfg0.bindFlags room).Room ≠ []) :
    (main w (.accepted room []) stdin net).exit = 0 ↔
      (∀ r ∈ outcomes (cfg0.bindFlags room) net 0 (deliverable stdin.data), r = .ok) ∧
        (∀ l ∈ linesFrom [] stdin.data, l.length < 65536) ∧ stdin.err = none := by
  rw [main_of_load w cfg0 room [] stdin net hload, if_neg hroom]
  simp only [List.length_nil, gt_iff_lt, lt_self_iff_false, if_false]
  rw [scanLoop_exit, scan_tokens]
  unfold Stdin.scan
  rw [scanTokens_snd]
  by_cases hall : ∀ l ∈ linesFrom [] stdin.data, l.length < 65536
  · rw [if_pos hall]
    exact ⟨fun h => ⟨h.1, hall, h.2⟩, fun h => ⟨h.1, h.2.2⟩⟩
  · rw [if_neg hall]
    constructor
    · intro h
      cases h.2
    · intro h
      exact absurd h.2.1 hall

/-- A sample run in which the second of three deliveries is refused: two
calls of `Post`, status 1. -/
theorem main_exit_zero_iff_witness :
    ¬ (main sampleWorld (.accepted none []) abcInput
        (fun i => if i = 1 then unauthorized else created i)).exit = 0 := by
  rw [main_exit_zero_iff sampleWorld sampleConfig none _ _ sample_load (by decide)]
  decide!

/-- When the HTTP client returns an error instead of a response, `Post`
returns that error. -/
theorem post_transport_error (m : RoomMessage) (config : Config)
    (client : Request → Except GoError Response) (req : Request) (err : GoError)
    (hreq : m.request config = .ok req) (herr : client req = .error err) :
    m.Post config client = .failed err := by
  unfold RoomMessage.Post
  rw [hreq]
  dsimp only
  rw [herr]

/-- A sample delivery that meets a refused connection. -/
theorem post_transport_error_witness :
    RoomMessage.Post ⟨ascii "hello world"⟩ sampleConfig
      (fun _ => .error (.ioError (ascii "connection refused")))
      = .failed (.ioError (ascii "connection refused")) :=
  post_transport_error _ _ _ sampleRequest _ sample_request rfl

end Hipcat
